import Mathlib

/-!
Verification of the counted-B-tree core (contrib/cbtree).

This development shallowly embeds the structural algorithms of the cbtree
index access method: the page/tuple data model (cbtree.h), rank-descent
search (cbtsearch.c), insert and page split (cbtinsert.c), bulk build
(cbtbuild.c) and the maintenance sweep (cbtvacuum.c).

Modelling conventions:
* Block numbers and offset numbers are `Nat`; `InvalidBlockNumber` is the
  32-bit all-ones value and `InvalidOffsetNumber` is `0`, as in PostgreSQL.
* The buffer pool / page store is a list of pages, block `b` (for `b >= 1`)
  living at index `b - 1`; block `0` is the meta page, whose contents
  (`cbtm_magic`, `cbtm_root`, `cbtm_level`) are separate fields of the
  state.  `ReadBuffer(rel, P_NEW)` is modelled by appending to the list.
* A page's item array is a `List (CBTTupleData × Bool)`; the `Bool` is the
  line pointer's LP_DEAD flag consulted by `ItemIdIsDead` (no code in this
  module ever sets it, but search and count routines test it).
* `MaxCBTTuplesPerPage` and the bulk-build fill thresholds are functions of
  the configurable page size BLCKSZ; every algorithm here is uniform in
  them, so they are exposed as the parameters of a `CBTConfig`.
* `childcnt` is a `uint32`; the only place its arithmetic can leave the
  32-bit range in this code is the `tuple->childcnt += change` updates of
  `cbt_change_parent` / `cbt_reduce_parent` (change may be `-1`), so those
  are modelled with an explicit wrap `u32add`; pure summations of stored
  counts are kept exact (they cannot reach `2 ^ 32` for any page whose
  counts are themselves exact subtree cardinalities below `2 ^ 32`).
* Recursions that the C code performs over on-disk pointer structures
  (root-to-leaf descent, parent-chain walks, cascaded splits and page
  deletions) are given explicit fuel; exhausted fuel is an error result,
  and the theorems either supply enough fuel or hypothesise success.
-/

def InvalidBlockNumber : Nat := 4294967295

def InvalidOffsetNumber : Nat := 0

def P_FIRSTOFFSET : Nat := 1

def CBT_METAPAGE : Nat := 0

def CBT_MAGIC : Nat := 0x0451253

def CBT_LEAF_LEVEL : Nat := 1

/-- ItemPointerData: a (block number, offset number) locator. -/
structure ItemPointerData where
  ip_blkid : Nat
  ip_posid : Nat
deriving Repr, DecidableEq

/-- ItemPointerIsValid: the offset number must not be InvalidOffsetNumber. -/
def ItemPointerIsValid (p : ItemPointerData) : Bool :=
  p.ip_posid != InvalidOffsetNumber

/-- CBTTupleData: an index tuple, `(itemptr, childcnt)`. -/
structure CBTTupleData where
  itemptr : ItemPointerData
  childcnt : Nat
deriving Repr, DecidableEq

/-- The cbto_flags bits CBT_LEAF, CBT_ROOT, CBT_META, CBT_DELETED,
CBT_HALF_DEAD, modelled as a record of booleans. -/
structure CBTFlags where
  leaf : Bool := false
  root : Bool := false
  meta : Bool := false
  deleted : Bool := false
  halfdead : Bool := false
deriving Repr, DecidableEq

/-- CBTPageOpaqueData: the special-space data of every cbtree page. -/
structure CBTPageOpaqueData where
  cbto_prev : Nat
  cbto_next : Nat
  cbto_parent : ItemPointerData
  level : Nat
  cbto_flags : CBTFlags
deriving Repr, DecidableEq

/-- A page: its line-pointer/tuple array (each with its ItemIdIsDead bit)
plus the opaque special space. -/
structure CBTPage where
  items : List (CBTTupleData × Bool)
  special : CBTPageOpaqueData
deriving Repr, DecidableEq

def P_ISLEAF (o : CBTPageOpaqueData) : Bool := o.cbto_flags.leaf

def P_ISDELETED (o : CBTPageOpaqueData) : Bool := o.cbto_flags.deleted

def P_IGNORE (o : CBTPageOpaqueData) : Bool :=
  o.cbto_flags.deleted || o.cbto_flags.halfdead

def P_RIGHTMOST (o : CBTPageOpaqueData) : Bool :=
  o.cbto_next == InvalidBlockNumber

/-- CBTInitPage: PageInit zeroes the page (so no items) and the special
space is memset to zero before the flags argument is stored; note that a
zeroed ItemPointerData is invalid (offset 0) while the zeroed sibling links
are block 0, not InvalidBlockNumber. -/
def CBTInitPage (flags : CBTFlags) : CBTPage :=
  { items := []
    special :=
      { cbto_prev := 0
        cbto_next := 0
        cbto_parent := { ip_blkid := 0, ip_posid := 0 }
        level := 0
        cbto_flags := flags } }

/-- CBTFormTuple: build a tuple from an item pointer and a child count. -/
def CBTFormTuple (itptr : ItemPointerData) (childcnt : Nat) : CBTTupleData :=
  { itemptr := itptr, childcnt := childcnt }

/-- The whole on-disk state of one cbtree: the meta record (block 0) and
the remaining blocks.  Block `b >= 1` is `pages[b-1]`; `none` models a
block that was allocated/zero-filled but never written as a cbtree page. -/
structure CBTState where
  cbtm_magic : Nat
  cbtm_root : Nat
  cbtm_level : Nat
  pages : List (Option CBTPage)
deriving Repr, DecidableEq

/-- Read block `blkno` (>= 1) from the store. -/
def getPage (st : CBTState) (blkno : Nat) : Option CBTPage :=
  if blkno = 0 then none
  else (st.pages.getD (blkno - 1) none)

/-- Overwrite block `blkno` in the store. -/
def setPage (st : CBTState) (blkno : Nat) (pg : CBTPage) : CBTState :=
  { st with pages := st.pages.set (blkno - 1) (some pg) }

/-- Block number handed out by `ReadBuffer(rel, P_NEW)`. -/
def newBlkno (st : CBTState) : Nat := st.pages.length + 1

/-- cbt_get_buffer with InvalidBlockNumber: extend the relation by one page
and run CBTInitPage(page, CBT_LEAF) on it. -/
def allocPage (st : CBTState) : CBTState :=
  { st with pages := st.pages ++ [some (CBTInitPage { leaf := true })] }

/-- CBTStackData: one frame of the search path stack.  A stack is the list
of frames from the leaf frame (head) towards the root, mirroring the
`cbts_parent` chain. -/
structure CBTStackData where
  cbts_blkno : Nat
  cbts_offset : Nat
  total_count : Nat
deriving Repr, DecidableEq

/-- The uint32 wrap-around for `childcnt += change` with a signed change. -/
def u32add (c : Nat) (change : Int) : Nat :=
  (((c : Int) + change) % (2 ^ 32 : Int)).toNat

/-- Errors of the modelled operations: `fuelOut` stands for a recursion the
model ran out of fuel for, `missing` for a read the C code would perform on
a nonexistent page or item (a crash or arbitrary behaviour), `corrupt` for
an explicit ereport/elog(ERROR) consistency failure in the source. -/
inductive CBTErr where
  | fuelOut
  | missing
  | corrupt
deriving Repr, DecidableEq

/-! ## Rank search (cbtsearch.c) -/

/-- The scan loop of cbt_search_in_page: walk the items from `offset`,
skipping dead line pointers, accumulating `leftcount += childcnt`, and
return `(offset, leftcount - childcnt)` at the first live tuple where
`leftcount >= pos`; past the last offset the result is NULL. -/
def searchLoop (pos : Nat) : List (CBTTupleData × Bool) → Nat → Nat →
    Option (Nat × Nat)
  | [], _, _ => none
  | (t, dead) :: rest, offset, leftcount =>
    if dead then searchLoop pos rest (offset + 1) leftcount
    else
      let lc := leftcount + t.childcnt
      if pos ≤ lc then some (offset, lc - t.childcnt)
      else searchLoop pos rest (offset + 1) lc

/-- cbt_search_in_page: push a new frame for the tuple of `pg` that covers
rank `pos`, the initial leftcount being the incoming stack's total_count
(0 for an empty stack); NULL if the page is empty or `pos` lies beyond the
page's accumulated count. -/
def cbt_search_in_page (pg : CBTPage) (blkno pos : Nat)
    (stack : List CBTStackData) : Option (List CBTStackData) :=
  let leftcount := match stack with
    | [] => 0
    | f :: _ => f.total_count
  match searchLoop pos pg.items P_FIRSTOFFSET leftcount with
  | none => none
  | some (off, total) =>
    some ({ cbts_blkno := blkno, cbts_offset := off, total_count := total } :: stack)

/-- The rightward walk of cbt_getroot over P_IGNORE pages ("it's dead, Jim.
step right one page"); errors out at a rightmost dead page. -/
def findLiveRoot (st : CBTState) : Nat → Nat → Option Nat
  | 0, _ => none
  | fuel + 1, blkno =>
    match getPage st blkno with
    | none => none
    | some pg =>
      if P_IGNORE pg.special then
        if P_RIGHTMOST pg.special then none
        else findLiveRoot st fuel pg.special.cbto_next
      else some blkno

/-- cbt_getroot at CBT_READ access: check the meta page's magic, fail (NULL
buffer) on an uninitialized root, else walk to a live root page and check
its level against cbtm_level.  The rd_amcache fast path only re-finds the
same page, so it is not modelled. -/
def cbt_getroot_read (st : CBTState) : Option Nat :=
  if st.cbtm_magic ≠ CBT_MAGIC then none
  else if st.cbtm_root = InvalidBlockNumber then none
  else
    match findLiveRoot st (st.pages.length + 1) st.cbtm_root with
    | none => none
    | some b =>
      match getPage st b with
      | none => none
      | some pg => if pg.special.level = st.cbtm_level then some b else none

/-- cbt_getroot at CBT_WRITE access: as cbt_getroot_read, but an
uninitialized root is created as a fresh page that is both leaf and root,
and the meta record is set to root = that page, level 1. -/
def cbt_getroot_write (st : CBTState) : CBTState × Option Nat :=
  if st.cbtm_magic ≠ CBT_MAGIC then (st, none)
  else if st.cbtm_root = InvalidBlockNumber then
    let b := newBlkno st
    let rootpage : CBTPage :=
      { items := []
        special :=
          { cbto_prev := InvalidBlockNumber
            cbto_next := InvalidBlockNumber
            cbto_parent := { ip_blkid := 0, ip_posid := 0 }
            level := CBT_LEAF_LEVEL
            cbto_flags := { leaf := true, root := true } } }
    ({ st with pages := st.pages ++ [some rootpage], cbtm_root := b, cbtm_level := 1 }, some b)
  else (st, cbt_getroot_read st)

/-- The descent loop of cbt_search: search within the current page, stop at
a leaf, otherwise follow the chosen tuple's child pointer. -/
def cbt_search_desc (st : CBTState) : Nat → Nat → Nat → List CBTStackData →
    Option (List CBTStackData)
  | 0, _, _, _ => none
  | fuel + 1, blkno, pos, stack =>
    match getPage st blkno with
    | none => none
    | some pg =>
      match cbt_search_in_page pg blkno pos stack with
      | none => none
      | some stack1 =>
        if P_ISLEAF pg.special then some stack1
        else
          match stack1 with
          | [] => none
          | fr :: _ =>
            match pg.items.get? (fr.cbts_offset - 1) with
            | none => none
            | some (t, _) => cbt_search_desc st fuel t.itemptr.ip_blkid pos stack1

/-- cbt_search at CBT_READ access (state unchanged). -/
def cbt_search_read (st : CBTState) (pos : Nat) : Option (List CBTStackData) :=
  match cbt_getroot_read st with
  | none => none
  | some root => cbt_search_desc st (st.pages.length + 1) root pos []

/-- cbt_search at CBT_WRITE access: may lazily create the root. -/
def cbt_search_write (st : CBTState) (pos : Nat) :
    CBTState × Option (List CBTStackData) :=
  match cbt_getroot_write st with
  | (st1, none) => (st1, none)
  | (st1, some root) => (st1, cbt_search_desc st1 (st1.pages.length + 1) root pos [])

/-! ## Insert and page split (cbtinsert.c) -/

/-- The tuple-capacity / fill parameters, all functions of the configurable
page size BLCKSZ: `cap` plays the role of MaxCBTTuplesPerPage (the insert
path's `PageGetFreeSpace(page) < itemsz` is "the page already holds `cap`
tuples"), `leaffill` and `innerfill` are the bulk-build close thresholds
derived from CBTREE_DEFAULT_FILLFACTOR and CBTREE_NONLEAF_FILLFACTOR. -/
structure CBTConfig where
  cap : Nat
  leaffill : Nat
  innerfill : Nat
deriving Repr, DecidableEq

/-- PageAddItem at a requested offset number: a valid offset up to
maxoff + 1 inserts there (shifting later tuples right); InvalidOffsetNumber
means append; an overlarge offset fails and leaves the page unchanged. -/
def addItemAt (items : List (CBTTupleData × Bool)) (off : Nat)
    (t : CBTTupleData) : List (CBTTupleData × Bool) :=
  if off = 0 then items ++ [(t, false)]
  else items.insertIdx (off - 1) (t, false)

/-- Update the tuple at `(blkno, off)` in place (no-op where the C code
would dereference a nonexistent item). -/
def updTuple (st : CBTState) (blkno off : Nat)
    (f : CBTTupleData → CBTTupleData) : CBTState :=
  match getPage st blkno with
  | none => st
  | some pg =>
    match pg.items.get? (off - 1) with
    | none => st
    | some (t, d) =>
      setPage st blkno { pg with items := pg.items.set (off - 1) (f t, d) }

/-- Sum of the childcnt of the live (not LP_DEAD) tuples of an item list;
this is the accumulation loop of cbt_find_totalcnt. -/
def sumLiveCnt : List (CBTTupleData × Bool) → Nat
  | [] => 0
  | (t, dead) :: rest => (if dead then 0 else t.childcnt) + sumLiveCnt rest

/-- cbt_find_totalcnt: total number of entries according to the root page's
tuple counts (0 for an empty index). -/
def cbt_find_totalcnt (st : CBTState) : Nat :=
  match cbt_getroot_read st with
  | none => 0
  | some root =>
    match getPage st root with
    | none => 0
    | some pg => sumLiveCnt pg.items

/-- cbt_change_parent: walk the ancestor frames of the stack and apply
`childcnt += change` to each referenced tuple. -/
def cbt_change_parent (st : CBTState) :
    List CBTStackData → Int → CBTState
  | [], _ => st
  | f :: rest, change =>
    cbt_change_parent
      (updTuple st f.cbts_blkno f.cbts_offset
        (fun t => { t with childcnt := u32add t.childcnt change }))
      rest change

/-- cbt_change_children: rewrite a child page's parent back-pointer. -/
def cbt_change_children (st : CBTState) (child : ItemPointerData)
    (parentblkno parentoffset : Nat) : CBTState :=
  match getPage st child.ip_blkid with
  | none => st
  | some pg =>
    setPage st child.ip_blkid
      { pg with special :=
          { pg.special with
              cbto_parent := { ip_blkid := parentblkno, ip_posid := parentoffset } } }

/-- Set a page's parent back-pointer (ItemPointerSet on cbto_parent). -/
def setParentPtr (st : CBTState) (blkno : Nat) (ptr : ItemPointerData) : CBTState :=
  match getPage st blkno with
  | none => st
  | some pg =>
    setPage st blkno { pg with special := { pg.special with cbto_parent := ptr } }

/-- Set a page's previous-sibling link. -/
def setPrevLink (st : CBTState) (blkno v : Nat) : CBTState :=
  match getPage st blkno with
  | none => st
  | some pg =>
    setPage st blkno { pg with special := { pg.special with cbto_prev := v } }

/-- The accumulator of cbt_split_page's distribution loop: the left/right
page images under construction, the running offsets and counts, and the
mutable `newitemoff` variable (reassigned to the on-page offset once the
incoming tuple is placed).  `st` threads the cbt_change_children writes to
the migrated children's back-pointers. -/
structure SplitAcc where
  st : CBTState
  litems : List (CBTTupleData × Bool)
  ritems : List (CBTTupleData × Bool)
  leftoff : Nat
  rightoff : Nat
  leftcount : Nat
  rightcount : Nat
  newoff : Nat
deriving Repr

/-- The `for (i = P_FIRSTOFFSET; i <= maxoff; ...)` distribution loop of
cbt_split_page: when `i` reaches the incoming tuple's target offset the
incoming tuple is placed first (on the side chosen by `newitemonleft`,
without a child back-pointer fix); then the original tuple at `i` goes left
if `i < firstright` and right otherwise, fixing its child's back-pointer
when the split page is not a leaf. -/
def splitDistLoop (is_leaf : Bool) (origpn rightpn firstright : Nat)
    (newitemonleft : Bool) (newitem : CBTTupleData) :
    List (CBTTupleData × Bool) → Nat → SplitAcc → SplitAcc
  | [], _, acc => acc
  | (t, _) :: rest, i, acc =>
    let acc1 :=
      if i = acc.newoff then
        if newitemonleft then
          { acc with
              litems := acc.litems ++ [(newitem, false)]
              newoff := acc.leftoff
              leftoff := acc.leftoff + 1
              leftcount := acc.leftcount + newitem.childcnt }
        else
          { acc with
              ritems := acc.ritems ++ [(newitem, false)]
              newoff := acc.rightoff
              rightoff := acc.rightoff + 1
              rightcount := acc.rightcount + newitem.childcnt }
      else acc
    let acc2 :=
      if i < firstright then
        { acc1 with
            st := if is_leaf then acc1.st
                  else cbt_change_children acc1.st t.itemptr origpn acc1.leftoff
            litems := acc1.litems ++ [(t, false)]
            leftoff := acc1.leftoff + 1
            leftcount := acc1.leftcount + t.childcnt }
      else
        { acc1 with
            st := if is_leaf then acc1.st
                  else cbt_change_children acc1.st t.itemptr rightpn acc1.rightoff
            ritems := acc1.ritems ++ [(t, false)]
            rightoff := acc1.rightoff + 1
            rightcount := acc1.rightcount + t.childcnt }
    splitDistLoop is_leaf origpn rightpn firstright newitemonleft newitem rest (i + 1) acc2

/-- The "cope with possibility that newitem goes at the end" step after the
loop: if the incoming tuple was not placed (its target offset is beyond
maxoff), append it to the right page.  Note the source increments
`rightcount` by `item->childcnt` here - `item` still holds the *last
original tuple* of the loop (`lastcnt`), not the incoming tuple. -/
def splitDistEnd (maxoff lastcnt : Nat) (newitem : CBTTupleData)
    (acc : SplitAcc) : SplitAcc :=
  if maxoff + 1 ≤ acc.newoff then
    { acc with
        ritems := acc.ritems ++ [(newitem, false)]
        newoff := acc.rightoff
        rightoff := acc.rightoff + 1
        rightcount := acc.rightcount + lastcnt }
  else acc

/-- The complete item-redistribution phase of cbt_split_page. -/
def cbt_split_distribute (is_leaf : Bool) (origpn rightpn firstright : Nat)
    (newitemonleft : Bool) (items : List (CBTTupleData × Bool))
    (newitemoff : Nat) (newitem : CBTTupleData) (st : CBTState) : SplitAcc :=
  let acc0 : SplitAcc :=
    { st := st, litems := [], ritems := [],
      leftoff := P_FIRSTOFFSET, rightoff := P_FIRSTOFFSET,
      leftcount := 0, rightcount := 0, newoff := newitemoff }
  let acc1 := splitDistLoop is_leaf origpn rightpn firstright newitemonleft
    newitem items P_FIRSTOFFSET acc0
  splitDistEnd items.length
    (match items.getLast? with | some (t, _) => t.childcnt | none => 0)
    newitem acc1

/-- The merged body of the mutually recursive pair cbt_insert_on_page /
cbt_split_page, so that the recursion is structural on the fuel and the
kernel can evaluate it (`splitting = false` is cbt_insert_on_page,
`splitting = true` is cbt_split_page; see the two wrappers below for the
correspondence with the source functions).

cbt_insert_on_page places the tuple at the offset recorded in the head
stack frame of the page `curblk`; a NULL stack reinitializes the page as a
new root first; a page without room for the tuple is split.  It returns the
state, the (possibly rewritten) stack and the block now holding the new
tuple.

cbt_split_page allocates a right page, redistributes the original page's
tuples plus the incoming tuple around the midpoint, promotes the two
separator counts into the parent (building a brand-new root when the split
page had no parent frame), verifies and re-links the right sibling's back
pointer, and installs the two page images.  As in the source, the new left
page image is built by CBTInitPage on a temp page whose cbto_parent is
never assigned, and PageRestoreTempPage copies that whole image (special
space included) over the original page. -/
def cbt_ins_step (cfg : CBTConfig) :
    Nat → Bool → CBTState → Nat → CBTTupleData → List CBTStackData →
    Except CBTErr (CBTState × List CBTStackData × Nat)
  | 0, _, _, _, _, _ => .error .fuelOut
  | fuel + 1, false, st, curblk, newtup, [] =>
    let st1 := setPage st curblk (CBTInitPage { root := true })
    let fr0 : CBTStackData :=
      { cbts_blkno := curblk, cbts_offset := P_FIRSTOFFSET, total_count := 0 }
    match getPage st1 curblk with
    | none => .error .missing
    | some pg =>
      if cfg.cap ≤ pg.items.length then
        cbt_ins_step cfg fuel true st1 curblk newtup [fr0]
      else
        .ok (setPage st1 curblk
          { pg with items := addItemAt pg.items fr0.cbts_offset newtup }, [fr0], curblk)
  | fuel + 1, false, st, curblk, newtup, fr :: rest =>
    match getPage st curblk with
    | none => .error .missing
    | some pg =>
      if cfg.cap ≤ pg.items.length then
        cbt_ins_step cfg fuel true st curblk newtup (fr :: rest)
      else
        .ok (setPage st curblk
          { pg with items := addItemAt pg.items fr.cbts_offset newtup },
          fr :: rest, curblk)
  | _ + 1, true, _, _, _, [] => .error .missing
  | fuel + 1, true, st0, origpn, newitem, fr :: parentstack =>
    let rightpn := newBlkno st0
    let st := allocPage st0
    match getPage st origpn with
    | none => .error .missing
    | some opg =>
      let oop := opg.special
      let is_leaf := P_ISLEAF oop
      let lflags := { oop.cbto_flags with root := false }
      let lop : CBTPageOpaqueData :=
        { cbto_prev := oop.cbto_prev, cbto_next := rightpn,
          cbto_parent := { ip_blkid := 0, ip_posid := 0 },
          level := oop.level, cbto_flags := lflags }
      let maxoff := opg.items.length
      let newitemonleft : Bool := decide (fr.cbts_offset ≤ maxoff / 2)
      let firstright := maxoff / 2 + 1
      let acc := cbt_split_distribute is_leaf origpn rightpn firstright
        newitemonleft opg.items fr.cbts_offset newitem st
      let pres : Except CBTErr (CBTState × List CBTStackData) :=
        match parentstack with
        | [] =>
          let parentblkno := newBlkno acc.st
          let st2 := allocPage acc.st
          let st3 := setPage st2 parentblkno
            { items := []
              special :=
                { cbto_prev := InvalidBlockNumber
                  cbto_next := InvalidBlockNumber
                  cbto_parent := { ip_blkid := 0, ip_posid := 0 }
                  level := oop.level + 1
                  cbto_flags := { root := true } } }
          let st4 := { st3 with cbtm_root := parentblkno, cbtm_level := oop.level + 1 }
          let parenttuple := CBTFormTuple
            { ip_blkid := origpn, ip_posid := P_FIRSTOFFSET } acc.leftcount
          let pframe : CBTStackData :=
            { cbts_blkno := parentblkno, cbts_offset := P_FIRSTOFFSET, total_count := 0 }
          match cbt_ins_step cfg fuel false st4 parentblkno parenttuple [pframe] with
          | .error e => .error e
          | .ok (st5, pstack1, _) =>
            .ok (setParentPtr st5 origpn
              { ip_blkid := parentblkno, ip_posid := P_FIRSTOFFSET }, pstack1)
        | pfr :: prest =>
          .ok (updTuple acc.st pfr.cbts_blkno pfr.cbts_offset
            (fun t => { t with childcnt := acc.leftcount }), pfr :: prest)
      match pres with
      | .error e => .error e
      | .ok (_, []) => .error .missing
      | .ok (stA, pfr1 :: prest1) =>
        let newparenttuple := CBTFormTuple
          { ip_blkid := rightpn, ip_posid := P_FIRSTOFFSET } acc.rightcount
        let pstack2 := { pfr1 with cbts_offset := pfr1.cbts_offset + 1 } :: prest1
        match cbt_ins_step cfg fuel false stA pfr1.cbts_blkno newparenttuple pstack2 with
        | .error e => .error e
        | .ok (_, [], _) => .error .missing
        | .ok (stB, pfr3 :: prest3, _) =>
          let rparent : ItemPointerData :=
            { ip_blkid := pfr3.cbts_blkno, ip_posid := pfr3.cbts_offset }
          match getPage stB origpn with
          | none => .error .missing
          | some opgB =>
            let sibRes : Except CBTErr (Option Nat) :=
              if P_RIGHTMOST opgB.special then .ok none
              else
                match getPage stB opgB.special.cbto_next with
                | none => .error .missing
                | some spg =>
                  if spg.special.cbto_prev ≠ origpn then .error .corrupt
                  else .ok (some opgB.special.cbto_next)
            match sibRes with
            | .error e => .error e
            | .ok sib =>
              let stD := setPage stB origpn { items := acc.litems, special := lop }
              let rop : CBTPageOpaqueData :=
                { cbto_prev := origpn, cbto_next := oop.cbto_next,
                  cbto_parent := rparent, level := oop.level, cbto_flags := lflags }
              let stE := setPage stD rightpn { items := acc.ritems, special := rop }
              let stF :=
                if P_RIGHTMOST rop then stE
                else
                  match sib with
                  | none => stE
                  | some s => setPrevLink stE s rightpn
              if newitemonleft then
                .ok (stF, { fr with cbts_blkno := origpn, cbts_offset := acc.newoff } :: pfr3 :: prest3, origpn)
              else
                .ok (stF, { fr with cbts_blkno := rightpn, cbts_offset := acc.newoff } :: pfr3 :: prest3, rightpn)

/-- cbt_insert_on_page (see cbt_ins_step). -/
def cbt_insert_on_page (cfg : CBTConfig) (fuel : Nat) (st : CBTState)
    (stack : List CBTStackData) (newtup : CBTTupleData) (curblk : Nat) :
    Except CBTErr (CBTState × List CBTStackData × Nat) :=
  cbt_ins_step cfg fuel false st curblk newtup stack

/-- cbt_split_page (see cbt_ins_step). -/
def cbt_split_page (cfg : CBTConfig) (fuel : Nat) (st : CBTState)
    (origpn : Nat) (newitem : CBTTupleData) (stack : List CBTStackData) :
    Except CBTErr (CBTState × List CBTStackData × Nat) :=
  cbt_ins_step cfg fuel true st origpn newitem stack

/-- cbt_insert_tuple: search for the target rank at write access; when that
fails (rank beyond the live count, or a fresh/empty tree), fall back to the
end of the sequence (building a one-frame stack at the root for an empty
tree); then bump every ancestor count and place the new unit tuple. -/
def cbt_insert_tuple (cfg : CBTConfig) (fuel : Nat) (st : CBTState)
    (position : Nat) (itmptr : ItemPointerData) : Except CBTErr CBTState :=
  let sres := cbt_search_write st position
  let prep : Except CBTErr (CBTState × List CBTStackData) :=
    match sres with
    | (st1, some stack) => .ok (st1, stack)
    | (st1, none) =>
      let newpos := cbt_find_totalcnt st1
      if newpos = 0 then
        match cbt_getroot_read st1 with
        | none => .error .missing
        | some rootblk =>
          .ok (st1, [{ cbts_blkno := rootblk, cbts_offset := P_FIRSTOFFSET,
                       total_count := 0 }])
      else
        match cbt_search_write st1 newpos with
        | (st2, some (f :: rest)) =>
          .ok (st2, { f with cbts_offset := f.cbts_offset + 1 } :: rest)
        | (_, _) => .error .missing
  match prep with
  | .error e => .error e
  | .ok (_, []) => .error .missing
  | .ok (st2, fr :: rest) =>
    let itup := CBTFormTuple itmptr 1
    let st3 := cbt_change_parent st2 rest 1
    match cbt_insert_on_page cfg fuel st3 (fr :: rest) itup fr.cbts_blkno with
    | .error e => .error e
    | .ok (st4, _, _) => .ok st4

/-- Repeated cbtinsert calls, one record at a time, each at the given
position. -/
def cbt_insert_list (cfg : CBTConfig) (fuel : Nat) :
    CBTState → List (Nat × ItemPointerData) → Except CBTErr CBTState
  | st, [] => .ok st
  | st, (pos, ptr) :: rest =>
    match cbt_insert_tuple cfg fuel st pos ptr with
    | .error e => .error e
    | .ok st1 => cbt_insert_list cfg fuel st1 rest

/-- The state of a freshly created empty index: just the meta record, no
root (this is what cbtbuildempty writes, see below). -/
def emptyIndex : CBTState :=
  { cbtm_magic := CBT_MAGIC, cbtm_root := InvalidBlockNumber,
    cbtm_level := 0, pages := [] }

/-! ## Maintenance sweep (cbtvacuum.c) -/

/-- cbt_reduce_parent: walk the parent back-pointer chain starting at
`parent`, applying `childcnt += change` to each tuple on the way; the walk
stops at an invalid pointer. -/
def cbt_reduce_parent (st : CBTState) : Nat → ItemPointerData → Int → CBTState
  | 0, _, _ => st
  | fuel + 1, parent, change =>
    if ¬ItemPointerIsValid parent then st
    else
      match getPage st parent.ip_blkid with
      | none => st
      | some pg =>
        let st1 := updTuple st parent.ip_blkid parent.ip_posid
          (fun t => { t with childcnt := u32add t.childcnt change })
        cbt_reduce_parent st1 fuel pg.special.cbto_parent change

/-- The merged body of the mutually recursive pair cbt_delitem_vacuum /
cbt_delpage_vacuum, structural on the fuel so that the kernel can evaluate
it (`delpage = false` is cbt_delitem_vacuum for the item at `itemindex`,
`delpage = true` is cbt_delpage_vacuum, with `itemindex` unused; see the
two wrappers below).

cbt_delitem_vacuum propagates -1 up the page's parent chain, physically
deletes the item at `itemindex` (PageIndexTupleDelete compacts the array),
and if the page is now empty hands it to cbt_delpage_vacuum.

cbt_delpage_vacuum clears the meta record's root pointer when the emptied
page has no valid parent pointer; otherwise it deletes the page's separator
tuple from the parent page through cbt_delitem_vacuum (which cascades if
the parent empties in turn); either way the page is then flagged
CBT_DELETED. -/
def cbt_del_step :
    Nat → Bool → CBTState → Nat → Nat → Except CBTErr CBTState
  | 0, _, _, _, _ => .error .fuelOut
  | fuel + 1, false, st, blkno, itemindex =>
    match getPage st blkno with
    | none => .error .missing
    | some pg =>
      let st1 := cbt_reduce_parent st (st.pages.length + 1)
        pg.special.cbto_parent (-1)
      match getPage st1 blkno with
      | none => .error .missing
      | some pg1 =>
        let st2 := setPage st1 blkno
          { pg1 with items := pg1.items.eraseIdx (itemindex - 1) }
        if pg1.items.eraseIdx (itemindex - 1) = [] then
          cbt_del_step fuel true st2 blkno 0
        else .ok st2
  | fuel + 1, true, st, blkno, _ =>
    match getPage st blkno with
    | none => .error .missing
    | some pg =>
      let parentptr := pg.special.cbto_parent
      let step : Except CBTErr CBTState :=
        if ¬ItemPointerIsValid parentptr then
          .ok { st with cbtm_root := InvalidBlockNumber }
        else
          cbt_del_step fuel false st parentptr.ip_blkid parentptr.ip_posid
      match step with
      | .error e => .error e
      | .ok st1 =>
        match getPage st1 blkno with
        | none => .error .missing
        | some pg1 =>
          .ok (setPage st1 blkno
            { pg1 with special :=
                { pg1.special with cbto_flags :=
                    { pg1.special.cbto_flags with deleted := true } } })

/-- cbt_delitem_vacuum (see cbt_del_step). -/
def cbt_delitem_vacuum (fuel : Nat) (st : CBTState) (blkno itemindex : Nat) :
    Except CBTErr CBTState :=
  cbt_del_step fuel false st blkno itemindex

/-- cbt_delpage_vacuum (see cbt_del_step). -/
def cbt_delpage_vacuum (fuel : Nat) (st : CBTState) (blkno : Nat) :
    Except CBTErr CBTState :=
  cbt_del_step fuel true st blkno 0

/-- The callback loop of cbtvacuumpage over the leaf page's original
offsets 1..maxoff, reading item `offnum - tupledeleted` so that already
performed deletions (which compact the array) are compensated. -/
def vacItemLoop (dfuel : Nat) (blkno : Nat) (callback : ItemPointerData → Bool)
    (maxoff : Nat) : Nat → CBTState → Nat → Nat → Except CBTErr CBTState
  | 0, _, _, _ => .error .fuelOut
  | fuel + 1, st, offnum, tupdel =>
    if maxoff < offnum then .ok st
    else
      match getPage st blkno with
      | none => .error .missing
      | some pg =>
        match pg.items.get? (offnum - tupdel - 1) with
        | none => .error .missing
        | some (t, _) =>
          if callback t.itemptr then
            match cbt_delitem_vacuum dfuel st blkno (offnum - tupdel) with
            | .error e => .error e
            | .ok st1 => vacItemLoop dfuel blkno callback maxoff fuel st1 (offnum + 1) (tupdel + 1)
          else vacItemLoop dfuel blkno callback maxoff fuel st (offnum + 1) tupdel

/-- cbtvacuumpage: only leaf pages are scanned for removable tuples;
never-written (all-zero) and non-leaf pages are skipped. -/
def cbtvacuumpage (dfuel : Nat) (st : CBTState) (blkno : Nat)
    (callback : ItemPointerData → Bool) : Except CBTErr CBTState :=
  match getPage st blkno with
  | none => .ok st
  | some pg =>
    if P_ISLEAF pg.special then
      vacItemLoop dfuel blkno callback pg.items.length
        (pg.items.length + 1) st P_FIRSTOFFSET 0
    else .ok st

/-- The page loop of cbtvacuumscan, over blocks CBT_METAPAGE+1 .. npages-1
(the sweep itself never extends the relation, so the length re-check loop
of the source visits each block exactly once). -/
def vacScanLoop (dfuel : Nat) (callback : ItemPointerData → Bool) :
    Nat → CBTState → Nat → Except CBTErr CBTState
  | 0, st, _ => .ok st
  | n + 1, st, blkno =>
    match cbtvacuumpage dfuel st blkno callback with
    | .error e => .error e
    | .ok st1 => vacScanLoop dfuel callback n st1 (blkno + 1)

/-- cbtbulkdelete / cbtvacuumscan: visit every block of the relation in
block-number order and vacuum the leaf pages against the callback. -/
def cbtbulkdelete (dfuel : Nat) (st : CBTState)
    (callback : ItemPointerData → Bool) : Except CBTErr CBTState :=
  vacScanLoop dfuel callback st.pages.length st (CBT_METAPAGE + 1)

/-! ## Bulk build (cbtbuild.c) -/

/-- CBTMetaPageData as CBTFillMetaPage writes it. -/
structure CBTMetaPageData where
  cbtm_magic : Nat
  cbtm_root : Nat
  cbtm_level : Nat
deriving Repr, DecidableEq

/-- CBTFillMetaPage: magic, root pointer and tree level of the meta
record. -/
def CBTFillMetaPage (root level : Nat) : CBTMetaPageData :=
  { cbtm_magic := CBT_MAGIC, cbtm_root := root, cbtm_level := level }

/-- Assemble a tree state from a meta record and a page store. -/
def stateOfMeta (m : CBTMetaPageData) (pages : List (Option CBTPage)) : CBTState :=
  { cbtm_magic := m.cbtm_magic, cbtm_root := m.cbtm_root,
    cbtm_level := m.cbtm_level, pages := pages }

/-- cbtbuildempty: write only a meta record with no root and level 0. -/
def cbtbuildempty : CBTState :=
  stateOfMeta (CBTFillMetaPage InvalidBlockNumber 0) []

/-- cbt_newpage: a fresh in-memory build page of the given level (leaf flag
for the leaf level, invalid sibling links and an invalid parent pointer). -/
def cbt_newpage (level : Nat) : CBTPage :=
  let pg := CBTInitPage (if CBT_LEAF_LEVEL < level then {} else { leaf := true })
  { pg with special :=
      { pg.special with
          cbto_prev := InvalidBlockNumber
          cbto_next := InvalidBlockNumber
          cbto_parent := { ip_blkid := InvalidBlockNumber, ip_posid := InvalidOffsetNumber }
          level := level } }

/-- CBTPageState: the per-level open-page state of the bulk build. -/
structure CBTPageState where
  cbtps_page : CBTPage
  cbtps_blockno : Nat
  cbtps_lastoff : Nat
  cbtps_level : Nat
  cbtps_maxfill : Nat
  total_count : Nat
deriving Repr, DecidableEq

/-- CBTBuildState: the chain of open page states (leaf level first, each
element's parent being the next element), the allocation counter, and the
pages written out so far. -/
structure CBTBuildState where
  cbtbs_pages_alloced : Nat
  written : List (Nat × CBTPage)
  chain : List CBTPageState
  indtuples : Nat
deriving Repr, DecidableEq

/-- cbt_init_pagestate: open a new page at `level`; the block number is the
pre-incremented allocation counter, and the fill threshold (in tuples here,
in free bytes in the source) depends on leaf vs upper level. -/
def cbt_init_pagestate (cfg : CBTConfig) (alloced level : Nat) :
    CBTPageState × Nat :=
  ({ cbtps_page := cbt_newpage level
     cbtps_blockno := alloced + 1
     cbtps_lastoff := P_FIRSTOFFSET - 1
     cbtps_level := level
     cbtps_maxfill := if CBT_LEAF_LEVEL < level then cfg.innerfill else cfg.leaffill
     total_count := 0 }, alloced + 1)

/-- The unconditional tail of cbt_build_add_tuple: advance cbtps_lastoff,
PageAddItem the tuple there (elog on failure), count it. -/
def buildPSAdd (bs : CBTBuildState) (idx : Nat) (newtuple : CBTTupleData) :
    Except CBTErr CBTBuildState :=
  match bs.chain.get? idx with
  | none => .error .missing
  | some ps =>
    let newoff := ps.cbtps_lastoff + 1
    let items1 := addItemAt ps.cbtps_page.items newoff newtuple
    if items1.length = ps.cbtps_page.items.length then .error .corrupt
    else
      let ps1 := { ps with
        cbtps_lastoff := newoff
        cbtps_page := { ps.cbtps_page with items := items1 }
        total_count := ps.total_count + newtuple.childcnt }
      .ok { bs with chain := bs.chain.set idx ps1, indtuples := bs.indtuples + 1 }

/-- cbt_build_add_tuple at chain position `idx` (0 = leaf level): if the
open page at this level reached its fill threshold, push its separator
tuple into the (possibly freshly opened) parent level, record the closed
page's parent pointer and sibling links, write it out, and open a fresh
page at this level; then append the tuple to the open page. -/
def cbt_build_add_tuple (cfg : CBTConfig) :
    Nat → CBTBuildState → Nat → CBTTupleData → Except CBTErr CBTBuildState
  | 0, _, _, _ => .error .fuelOut
  | fuel + 1, bs0, idx, newtuple =>
    let bs :=
      if bs0.chain.length = 0 then
        let (ps, alloced) := cbt_init_pagestate cfg bs0.cbtbs_pages_alloced CBT_LEAF_LEVEL
        { bs0 with chain := [ps], cbtbs_pages_alloced := alloced }
      else bs0
    match bs.chain.get? idx with
    | none => .error .missing
    | some ps =>
      let len := ps.cbtps_page.items.length
      if cfg.cap ≤ len ∨ (ps.cbtps_maxfill ≤ len ∧ 1 < ps.cbtps_lastoff) then
        let bs1 :=
          if bs.chain.length = idx + 1 then
            let (pps, alloced) := cbt_init_pagestate cfg bs.cbtbs_pages_alloced
              (ps.cbtps_level + 1)
            { bs with chain := bs.chain ++ [pps], cbtbs_pages_alloced := alloced }
          else bs
        let parenttuple := CBTFormTuple
          { ip_blkid := ps.cbtps_blockno, ip_posid := P_FIRSTOFFSET } ps.total_count
        match cbt_build_add_tuple cfg fuel bs1 (idx + 1) parenttuple with
        | .error e => .error e
        | .ok bs2 =>
          match bs2.chain.get? (idx + 1), bs2.chain.get? idx with
          | some pps2, some psOld =>
            let opage2 := { psOld.cbtps_page with special :=
              { psOld.cbtps_page.special with cbto_parent :=
                  { ip_blkid := pps2.cbtps_blockno, ip_posid := pps2.cbtps_lastoff } } }
            let (psNew, alloced) := cbt_init_pagestate cfg bs2.cbtbs_pages_alloced
              psOld.cbtps_level
            let opage3 := { opage2 with special :=
              { opage2.special with cbto_next := psNew.cbtps_blockno } }
            let npage := { psNew.cbtps_page with special :=
              { psNew.cbtps_page.special with cbto_prev := psOld.cbtps_blockno } }
            let psNew2 := { psNew with cbtps_page := npage }
            let bs3 := { bs2 with
              chain := bs2.chain.set idx psNew2
              cbtbs_pages_alloced := alloced
              written := bs2.written ++ [(psOld.cbtps_blockno, opage3)] }
            buildPSAdd bs3 idx newtuple
          | _, _ => .error .missing
      else
        buildPSAdd bs idx newtuple

/-- The IndexBuildHeapScan callback loop: form a unit-count tuple per
incoming record and add it at the leaf level. -/
def buildCallbackFold (cfg : CBTConfig) (fuel : Nat) :
    CBTBuildState → List ItemPointerData → Except CBTErr CBTBuildState
  | bs, [] => .ok bs
  | bs, p :: rest =>
    match cbt_build_add_tuple cfg fuel bs 0 (CBTFormTuple p 1) with
    | .error e => .error e
    | .ok bs1 => buildCallbackFold cfg fuel bs1 rest

/-- cbt_finish_upper_level's while loop from the leaf page state upward:
count a level, mark the last-level page as root (or push its separator into
its parent), write it out, and remember the last block written as the
root.  Returns the final build state, the level count and the root block
number (InvalidBlockNumber when the chain was empty). -/
def cbt_finish_upper (cfg : CBTConfig) :
    Nat → CBTBuildState → Nat → Nat → Nat →
    Except CBTErr (CBTBuildState × Nat × Nat)
  | 0, _, _, _, _ => .error .fuelOut
  | fuel + 1, bs, idx, level, rootblkno =>
    match bs.chain.get? idx with
    | none => .ok (bs, level, rootblkno)
    | some ps =>
      if bs.chain.length = idx + 1 then
        let pg1 := { ps.cbtps_page with special :=
          { ps.cbtps_page.special with cbto_flags :=
              { ps.cbtps_page.special.cbto_flags with root := true } } }
        let bs1 := { bs with
          chain := bs.chain.set idx { ps with cbtps_page := pg1 }
          written := bs.written ++ [(ps.cbtps_blockno, pg1)] }
        cbt_finish_upper cfg fuel bs1 (idx + 1) (level + 1) ps.cbtps_blockno
      else
        let parenttuple := CBTFormTuple
          { ip_blkid := ps.cbtps_blockno, ip_posid := P_FIRSTOFFSET } ps.total_count
        match cbt_build_add_tuple cfg fuel bs (idx + 1) parenttuple with
        | .error e => .error e
        | .ok bs2 =>
          match bs2.chain.get? idx with
          | none => .error .missing
          | some ps2 =>
            let bs3 := { bs2 with
              written := bs2.written ++ [(ps2.cbtps_blockno, ps2.cbtps_page)] }
            cbt_finish_upper cfg fuel bs3 (idx + 1) (level + 1) ps2.cbtps_blockno

/-- The content of block `blkno` after all writes (later writes win);
blocks never written stay zero-filled. -/
def lookupWritten (w : List (Nat × CBTPage)) (blkno : Nat) : Option CBTPage :=
  match w.reverse.find? (fun p => p.1 == blkno) with
  | none => none
  | some p => some p.2

/-- The relation contents produced by a finished bulk build. -/
def buildAssemble (bs : CBTBuildState) (rootblkno level : Nat) : CBTState :=
  stateOfMeta (CBTFillMetaPage rootblkno level)
    ((List.range bs.cbtbs_pages_alloced).map (fun i => lookupWritten bs.written (i + 1)))

/-- cbtbuild: bulk-build a tree from the full record enumeration, then
close all open levels and write the meta record. -/
def cbtbuild (cfg : CBTConfig) (fuel : Nat) (records : List ItemPointerData) :
    Except CBTErr CBTState :=
  let bs0 : CBTBuildState :=
    { cbtbs_pages_alloced := CBT_METAPAGE, written := [], chain := [], indtuples := 0 }
  match buildCallbackFold cfg fuel bs0 records with
  | .error e => .error e
  | .ok bs1 =>
    match cbt_finish_upper cfg fuel bs1 0 0 InvalidBlockNumber with
    | .error e => .error e
    | .ok (bs2, level, rootblkno) => .ok (buildAssemble bs2 rootblkno level)

/-! ## Specification-side observers

These definitions do not correspond to source functions; they compute, for
use in the theorem statements, the ground truth the spec talks about: the
ordered list of live leaf entries below a page, the number of such entries,
and the structural invariants (exact counts, valid parent back-pointers). -/

/-- The item pointers of the live tuples of an item list, in page order. -/
def liveEntries : List (CBTTupleData × Bool) → List ItemPointerData
  | [] => []
  | (t, dead) :: rest =>
    if dead then liveEntries rest else t.itemptr :: liveEntries rest

/-- The ordered list of live leaf entries below a page, provided the
subtree below it is well formed within `fuel` levels: every page on the way
exists, leaf tuples are unit-count, and every internal tuple's count equals
the number of entries below its child.  `none` means the subtree is deeper
than `fuel` or violates one of these conditions.  On an internal page the
children referenced by its live tuples are concatenated left to right (the
fold is spelled out so the recursion is structural on the fuel; `kidsUnder`
below names the same fold for the lemmas). -/
def entriesUnder (st : CBTState) : Nat → Nat → Option (List ItemPointerData)
  | 0, _ => none
  | fuel + 1, blkno =>
    match getPage st blkno with
    | none => none
    | some pg =>
      if P_ISLEAF pg.special then
        if pg.items.all (fun p => p.2 || p.1.childcnt == 1) then
          some (liveEntries pg.items)
        else none
      else
        pg.items.foldr (fun p acc =>
          if p.2 then acc
          else
            match entriesUnder st fuel p.1.itemptr.ip_blkid with
            | none => none
            | some mid =>
              if p.1.childcnt = mid.length then
                match acc with
                | none => none
                | some rest => some (mid ++ rest)
              else none) (some [])

/-- The fold of `entriesUnder` over an internal page's items, as a named
function: concatenate the entry lists below the children referenced by the
live tuples, checking each stored count on the way. -/
def kidsUnder (st : CBTState) (fuel : Nat)
    (items : List (CBTTupleData × Bool)) : Option (List ItemPointerData) :=
  items.foldr (fun p acc =>
    if p.2 then acc
    else
      match entriesUnder st fuel p.1.itemptr.ip_blkid with
      | none => none
      | some mid =>
        if p.1.childcnt = mid.length then
          match acc with
          | none => none
          | some rest => some (mid ++ rest)
        else none) (some [])

/-- The number of live leaf entries below a page, computed without looking
at any stored count (the ground truth the count invariant refers to). -/
def numEntriesUnder (st : CBTState) : Nat → Nat → Option Nat
  | 0, _ => none
  | fuel + 1, blkno =>
    match getPage st blkno with
    | none => none
    | some pg =>
      if P_ISLEAF pg.special then some (liveEntries pg.items).length
      else
        pg.items.foldr (fun p acc =>
          if p.2 then acc
          else
            match numEntriesUnder st fuel p.1.itemptr.ip_blkid with
            | none => none
            | some mid =>
              match acc with
              | none => none
              | some rest => some (mid + rest)) (some 0)

/-- The count invariant at one page: every live tuple of a non-leaf page
must carry exactly the number of live leaf entries below its child. -/
def countsOkPage (st : CBTState) (fuel : Nat) (pg : CBTPage) : Bool :=
  P_ISLEAF pg.special ||
    pg.items.all (fun p =>
      p.2 || (numEntriesUnder st fuel p.1.itemptr.ip_blkid == some p.1.childcnt))

/-- The count invariant over the whole page store (deleted pages and
never-written blocks exempt). -/
def countsOk (st : CBTState) : Bool :=
  st.pages.all (fun opg =>
    match opg with
    | none => true
    | some pg => P_ISDELETED pg.special || countsOkPage st (st.pages.length + 1) pg)

/-- The parent-locator invariant at one page: the locator must be valid and
the tuple it points at must reference this very block. -/
def parentPtrOk (st : CBTState) (blkno : Nat) (pg : CBTPage) : Bool :=
  ItemPointerIsValid pg.special.cbto_parent &&
    (match getPage st pg.special.cbto_parent.ip_blkid with
     | none => false
     | some ppg =>
       match ppg.items.get? (pg.special.cbto_parent.ip_posid - 1) with
       | none => false
       | some (t, _) => t.itemptr.ip_blkid == blkno)

/-- The parent-locator invariant over the whole page store: every non-root,
non-deleted page's locator identifies the tuple referencing it. -/
def parentPtrsOk (st : CBTState) : Bool :=
  (List.range st.pages.length).all (fun i =>
    match getPage st (i + 1) with
    | none => true
    | some pg =>
      P_ISDELETED pg.special || (i + 1 == st.cbtm_root) || parentPtrOk st (i + 1) pg)

/-- cbt_first / cbtgettuple: run the rank search at read access for the
scan key's position and surface the found tuple's heap item pointer. -/
def cbt_first (st : CBTState) (pos : Nat) : Option ItemPointerData :=
  match cbt_search_read st pos with
  | none => none
  | some [] => none
  | some (fr :: _) =>
    match getPage st fr.cbts_blkno with
    | none => none
    | some pg =>
      match pg.items.get? (fr.cbts_offset - 1) with
      | none => none
      | some (t, _) => some t.itemptr

/-- The well-formedness the descent of cbt_search relies on, checked down
from a page: the page exists, holds at least one live tuple, every live
tuple's count is at least 1, and every live child of a non-leaf page
satisfies the same (within `fuel` levels). -/
def searchable (st : CBTState) : Nat → Nat → Bool
  | 0, _ => false
  | fuel + 1, blkno =>
    match getPage st blkno with
    | none => false
    | some pg =>
      pg.items.any (fun p => !p.2) &&
      pg.items.all (fun p => p.2 || decide (1 ≤ p.1.childcnt)) &&
      (P_ISLEAF pg.special ||
        pg.items.all (fun p => p.2 || searchable st fuel p.1.itemptr.ip_blkid))

/-! ## Concrete runs used by the claim theorems -/

instance exceptStDecEq : DecidableEq (Except CBTErr CBTState)
  | .error e, .error f =>
    if h : e = f then .isTrue (by rw [h]) else .isFalse (fun hh => h (Except.error.inj hh))
  | .error _, .ok _ => .isFalse (fun hh => Except.noConfusion hh)
  | .ok _, .error _ => .isFalse (fun hh => Except.noConfusion hh)
  | .ok a, .ok b =>
    if h : a = b then .isTrue (by rw [h]) else .isFalse (fun hh => h (Except.ok.inj hh))

/-- A miniature page geometry (two tuples per page) for the concrete runs:
every algorithm of the module is uniform in the BLCKSZ-derived capacities,
and this geometry reaches multi-level trees within a handful of inserts.
(The default 8 kB geometry `pg8kConfig` below behaves identically on the
same code paths, it merely needs hundreds of thousands of inserts to reach
them.) -/
def cbtTestConfig : CBTConfig := { cap := 2, leaffill := 2, innerfill := 2 }

/-- The 8 kB-page geometry: MaxCBTTuplesPerPage = (8192 - 24) /
(MAXALIGN(sizeof(CBTTupleData) + 1) + sizeof(ItemIdData)) = 8168 / 20 =
408 tuples; the two build fill thresholds correspond to the default 90
percent leaf fill factor and the 70 percent non-leaf fill factor. -/
def pg8kConfig : CBTConfig := { cap := 408, leaffill := 367, innerfill := 285 }

/-- A distinct heap item pointer per record number. -/
def heapPtr (i : Nat) : ItemPointerData := { ip_blkid := 100 + i, ip_posid := 1 }

/-- Insert records 1..n one at a time, record `i` at position `i` (i.e.
each insertion at the end of the sequence, as a sequential loader would). -/
def insSeq (n : Nat) : Except CBTErr CBTState :=
  cbt_insert_list cbtTestConfig 20 emptyIndex
    ((List.range n).map (fun i => (i + 1, heapPtr (i + 1))))

/-- Extract the state of a successful run (dummy fallback on error; the
theorems always pair this with the assertion that the run succeeded). -/
def stateOf (r : Except CBTErr CBTState) : CBTState :=
  match r with
  | .ok st => st
  | .error _ => emptyIndex

/-- The tree after inserting records 1..4 sequentially. -/
def insState4 : CBTState := stateOf (insSeq 4)

/-- The tree after inserting records 1..3 sequentially. -/
def insState3 : CBTState := stateOf (insSeq 3)

/-- The tree bulk-built from the same four records. -/
def bulkState4 : CBTState := stateOf (cbtbuild cbtTestConfig 20
  [heapPtr 1, heapPtr 2, heapPtr 3, heapPtr 4])

/-- The expected tree after one insert into an empty index: a single page
that is both leaf and root, holding one unit-count tuple. -/
def singleLeafState (itmptr : ItemPointerData) : CBTState :=
  { cbtm_magic := CBT_MAGIC, cbtm_root := 1, cbtm_level := 1,
    pages := [some
      { items := [(CBTFormTuple itmptr 1, false)]
        special :=
          { cbto_prev := InvalidBlockNumber
            cbto_next := InvalidBlockNumber
            cbto_parent := { ip_blkid := 0, ip_posid := 0 }
            level := 1
            cbto_flags := { leaf := true, root := true } } }] }

/-- Re-adding an item list with fresh (live) line pointers, as the split's
PageAddItem calls do. -/
def stripDead (items : List (CBTTupleData × Bool)) : List (CBTTupleData × Bool) :=
  items.map (fun p => (p.1, false))

/-- Sum of the stored childcnt over an item list. -/
def sumTupCnt (l : List (CBTTupleData × Bool)) : Nat :=
  (l.map (fun p => p.1.childcnt)).sum

/-- A 3-tuple page geometry for exercising a split of a page with a
right sibling. -/
def c8cfg : CBTConfig := { cap := 3, leaffill := 3, innerfill := 3 }

/-- A full leaf (block 1) with a right sibling at block 2. -/
def c8leaf1 : CBTPage :=
  { items := [(CBTFormTuple (heapPtr 1) 1, false),
              (CBTFormTuple (heapPtr 2) 1, false),
              (CBTFormTuple (heapPtr 3) 1, false)]
    special :=
      { cbto_prev := InvalidBlockNumber
        cbto_next := 2
        cbto_parent := { ip_blkid := 3, ip_posid := 1 }
        level := 1
        cbto_flags := { leaf := true } } }

/-- The right sibling (block 2), whose previous link points back at
block 1. -/
def c8leaf2 : CBTPage :=
  { items := [(CBTFormTuple (heapPtr 4) 1, false)]
    special :=
      { cbto_prev := 1
        cbto_next := InvalidBlockNumber
        cbto_parent := { ip_blkid := 3, ip_posid := 2 }
        level := 1
        cbto_flags := { leaf := true } } }

/-- The root (block 3) referencing the two leaves, with room for the
promoted separator. -/
def c8root : CBTPage :=
  { items := [(CBTFormTuple { ip_blkid := 1, ip_posid := 1 } 3, false),
              (CBTFormTuple { ip_blkid := 2, ip_posid := 1 } 1, false)]
    special :=
      { cbto_prev := InvalidBlockNumber
        cbto_next := InvalidBlockNumber
        cbto_parent := { ip_blkid := 0, ip_posid := 0 }
        level := 2
        cbto_flags := { root := true } } }

/-- Two-level tree of four records in which block 1 is full. -/
def c8st0 : CBTState :=
  { cbtm_magic := CBT_MAGIC, cbtm_root := 3, cbtm_level := 2,
    pages := [some c8leaf1, some c8leaf2, some c8root] }

/-- Incoming fifth record, to be appended at the end of block 1. -/
def c8ni : CBTTupleData := CBTFormTuple (heapPtr 5) 1

/-- Leaf insertion frame: block 1, end offset 4. -/
def c8fr : CBTStackData := { cbts_blkno := 1, cbts_offset := 4, total_count := 0 }

/-- Parent frame: block 3, whose tuple 1 references block 1. -/
def c8pfr : CBTStackData := { cbts_blkno := 3, cbts_offset := 1, total_count := 0 }

/-- The state after the new block 4 was allocated and the separator for it
was promoted into the root: the root's first tuple drops to the left half's
count 1 and a second tuple (child 4, count 3) is inserted after it. -/
def c8stB : CBTState :=
  { cbtm_magic := CBT_MAGIC, cbtm_root := 3, cbtm_level := 2,
    pages := [some c8leaf1, some c8leaf2,
      some { items := [(CBTFormTuple { ip_blkid := 1, ip_posid := 1 } 1, false),
                       (CBTFormTuple { ip_blkid := 4, ip_posid := 1 } 3, false),
                       (CBTFormTuple { ip_blkid := 2, ip_posid := 1 } 1, false)]
             special := c8root.special },
      some (CBTInitPage { leaf := true })] }

/-- A single-record leaf (block 1) whose parent is the root's tuple 1. -/
def c6leaf : CBTPage :=
  { items := [(CBTFormTuple (heapPtr 1) 1, false)]
    special :=
      { cbto_prev := InvalidBlockNumber
        cbto_next := InvalidBlockNumber
        cbto_parent := { ip_blkid := 2, ip_posid := 1 }
        level := 1
        cbto_flags := { leaf := true } } }

/-- A root (block 2) holding only the separator of `c6leaf`. -/
def c6root : CBTPage :=
  { items := [(CBTFormTuple { ip_blkid := 1, ip_posid := 1 } 1, false)]
    special :=
      { cbto_prev := InvalidBlockNumber
        cbto_next := InvalidBlockNumber
        cbto_parent := { ip_blkid := 0, ip_posid := 0 }
        level := 2
        cbto_flags := { root := true } } }

/-- A two-level single-record tree: vacuuming away the record cascades
through both pages and clears the root pointer. -/
def c6st : CBTState :=
  { cbtm_magic := CBT_MAGIC, cbtm_root := 2, cbtm_level := 2,
    pages := [some c6leaf, some c6root] }

/-! ## Claim theorems -/

/-- C2 (code bug): the count invariant does **not** hold on every tree
reachable from the empty tree by the public operations.  Four sequential
inserts (two-tuple pages) produce, through the `rightcount +=
item->childcnt` slip in cbt_split_page's newitem-at-the-end path, a root
(block 6) whose second tuple records childcnt = 2 for the child page 5
although exactly 3 live leaf entries lie below that child. -/
theorem c2_count_invariant_violated :
    insSeq 4 = .ok insState4 ∧
    countsOk insState4 = false ∧
    insState4.cbtm_root = 6 ∧
    (getPage insState4 6).map (fun pg => pg.items.get? 1) =
      some (some ({ itemptr := { ip_blkid := 5, ip_posid := 1 }, childcnt := 2 }, false)) ∧
    numEntriesUnder insState4 7 5 = some 3 :=
  ⟨rfl, rfl, rfl, rfl, rfl⟩

/-- C3 (code bug): the insert-then-read-back round trip fails.  After
inserting four records one at a time (record i at rank i), the tree holds
four live leaf entries but searching rank 4 reports "not found" (a
consequence of the undercounted separator of C2), while bulk-building the
same four records yields a tree that returns all four records in insertion
order - so the two construction paths do not even agree. -/
theorem c3_round_trip_violated :
    insSeq 4 = .ok insState4 ∧
    numEntriesUnder insState4 7 insState4.cbtm_root = some 4 ∧
    cbt_first insState4 1 = some (heapPtr 1) ∧
    cbt_first insState4 2 = some (heapPtr 2) ∧
    cbt_first insState4 3 = some (heapPtr 3) ∧
    cbt_first insState4 4 = none ∧
    cbtbuild cbtTestConfig 20 [heapPtr 1, heapPtr 2, heapPtr 3, heapPtr 4] =
      .ok bulkState4 ∧
    (∀ k, k ∈ [1, 2, 3, 4] → cbt_first bulkState4 k = some (heapPtr k)) :=
  ⟨rfl, rfl, rfl, rfl, rfl, rfl, rfl, by decide⟩

/-- C5 (code bug): the parent locator of a non-root, non-deleted page is
**not** kept valid across structural changes.  Already after the third
sequential insert (the first split), the left half of the split - block 1 -
is live and referenced by the root's first tuple, but its cbto_parent is
the invalid zero pointer: cbt_split_page builds the left page image on a
CBTInitPage'd temp page whose cbto_parent is never assigned, and
PageRestoreTempPage copies that whole image over the original page
(clobbering even the assignment the root-split branch makes at line 448
of cbtinsert.c before the copy). -/
theorem c5_parent_locator_violated :
    insSeq 3 = .ok insState3 ∧
    parentPtrsOk insState3 = false ∧
    insState3.cbtm_root = 3 ∧
    (getPage insState3 1).map (fun pg =>
      (pg.special.cbto_flags.deleted, ItemPointerIsValid pg.special.cbto_parent)) =
      some (false, false) ∧
    (getPage insState3 3).map (fun pg => pg.items.get? 0) =
      some (some ({ itemptr := { ip_blkid := 1, ip_posid := 1 }, childcnt := 1 }, false)) :=
  ⟨rfl, rfl, rfl, rfl, rfl⟩

/-- C7 (confirmed): inserting at rank 1 into an empty tree (no root,
height 0) succeeds and yields a single page that is both leaf and root, a
meta record of height 1, and exactly one tuple of count 1. -/
theorem c7_first_insert_into_empty (itmptr : ItemPointerData) :
    cbt_insert_tuple pg8kConfig 4 emptyIndex 1 itmptr = .ok (singleLeafState itmptr) ∧
    (singleLeafState itmptr).pages.length = 1 ∧
    (singleLeafState itmptr).cbtm_level = 1 ∧
    (singleLeafState itmptr).cbtm_root = 1 ∧
    (singleLeafState itmptr).pages.map (Option.map (fun pg =>
      (P_ISLEAF pg.special, pg.special.cbto_flags.root, pg.items))) =
      [some (true, true, [(CBTFormTuple itmptr 1, false)])] :=
  ⟨rfl, rfl, rfl, rfl, rfl⟩

/-- C9 (confirmed): bulk build on an empty record enumeration produces
exactly what cbtbuildempty writes - a meta record with magic, no root (the
invalid block number) and height 0 - and no tree pages at all. -/
theorem c9_empty_build (cfg : CBTConfig) (fuel : Nat) :
    cbtbuild cfg (fuel + 1) [] = .ok cbtbuildempty ∧
    cbtbuildempty = stateOfMeta (CBTFillMetaPage InvalidBlockNumber 0) [] ∧
    cbtbuildempty.cbtm_root = InvalidBlockNumber ∧
    cbtbuildempty.cbtm_level = 0 ∧
    cbtbuildempty.pages = [] :=
  ⟨rfl, rfl, rfl, rfl, rfl⟩


/-! ## Split distribution lemmas (towards C4) -/

theorem insertIdx_append_length (l1 l2 : List (CBTTupleData × Bool))
    (v : CBTTupleData × Bool) :
    (l1 ++ l2).insertIdx l1.length v = l1 ++ v :: l2 := by
  induction l1 with
  | nil => simp [List.insertIdx_zero]
  | cons x xs ih => simp [List.insertIdx_succ_cons, ih]

theorem sumTupCnt_append (a b : List (CBTTupleData × Bool)) :
    sumTupCnt (a ++ b) = sumTupCnt a + sumTupCnt b := by
  simp [sumTupCnt]

theorem sumTupCnt_stripDead (l : List (CBTTupleData × Bool)) :
    sumTupCnt (stripDead l) = sumTupCnt l := by
  induction l with
  | nil => rfl
  | cons x xs ih => simpa [sumTupCnt, stripDead] using congrArg (x.1.childcnt + ·) ih

theorem splitDistLoop_append (il : Bool) (o r fr : Nat) (nol : Bool)
    (ni : CBTTupleData) (xs : List (CBTTupleData × Bool)) :
    ∀ (ys : List (CBTTupleData × Bool)) (i : Nat) (acc : SplitAcc),
    splitDistLoop il o r fr nol ni (xs ++ ys) i acc =
      splitDistLoop il o r fr nol ni ys (i + xs.length)
        (splitDistLoop il o r fr nol ni xs i acc) := by
  induction xs with
  | nil => intro ys i acc; rfl
  | cons x xs ih =>
    intro ys i acc
    obtain ⟨t, d⟩ := x
    simp only [List.cons_append, splitDistLoop, List.length_cons, List.append_eq]
    rw [ih]
    have h : i + 1 + xs.length = i + (xs.length + 1) := by omega
    rw [h]

/-- The distribution loop over a stretch during which the incoming tuple is
never placed (either it was already placed - `newoff < i` - or its target
offset lies beyond the stretch): the original tuples whose index is below
`firstright` are appended to the left page and the others to the right
page, and the bookkeeping fields advance accordingly. -/
theorem splitDistLoop_pure (il : Bool) (o r fr : Nat) (nol : Bool)
    (ni : CBTTupleData) (rest : List (CBTTupleData × Bool)) :
    ∀ (i : Nat) (acc : SplitAcc),
    (acc.newoff < i ∨ i + rest.length ≤ acc.newoff) →
    (splitDistLoop il o r fr nol ni rest i acc).litems =
        acc.litems ++ stripDead (rest.take (fr - i)) ∧
    (splitDistLoop il o r fr nol ni rest i acc).ritems =
        acc.ritems ++ stripDead (rest.drop (fr - i)) ∧
    (splitDistLoop il o r fr nol ni rest i acc).newoff = acc.newoff ∧
    (splitDistLoop il o r fr nol ni rest i acc).leftoff =
        acc.leftoff + (rest.take (fr - i)).length ∧
    (splitDistLoop il o r fr nol ni rest i acc).rightoff =
        acc.rightoff + (rest.drop (fr - i)).length := by
  induction rest with
  | nil => intro i acc h; simp [splitDistLoop, stripDead]
  | cons p rest ih =>
    intro i acc h
    obtain ⟨t, d⟩ := p
    have hne : ¬(i = acc.newoff) := by
      rcases h with h | h
      · omega
      · simp only [List.length_cons] at h; omega
    have hs : acc.newoff < i + 1 ∨ i + 1 + rest.length ≤ acc.newoff := by
      rcases h with h | h
      · exact Or.inl (by omega)
      · simp only [List.length_cons] at h; exact Or.inr (by omega)
    by_cases hfr : i < fr
    · have ihx := ih (i + 1)
        { st := if il = true then acc.st
                else cbt_change_children acc.st t.itemptr o acc.leftoff
          litems := acc.litems ++ [(t, false)], ritems := acc.ritems
          leftoff := acc.leftoff + 1, rightoff := acc.rightoff
          leftcount := acc.leftcount + t.childcnt, rightcount := acc.rightcount
          newoff := acc.newoff } hs
      have htake : fr - i = (fr - (i + 1)) + 1 := by omega
      simp only [splitDistLoop, if_neg hne, if_pos hfr]
      rw [htake]
      refine ⟨?_, ?_, ?_, ?_, ?_⟩
      · rw [ihx.1]; simp [stripDead, List.append_assoc]
      · rw [ihx.2.1]; simp [stripDead]
      · rw [ihx.2.2.1]
      · rw [ihx.2.2.2.1]; simp; omega
      · rw [ihx.2.2.2.2]; simp
    · have ihx := ih (i + 1)
        { st := if il = true then acc.st
                else cbt_change_children acc.st t.itemptr r acc.rightoff
          litems := acc.litems, ritems := acc.ritems ++ [(t, false)]
          leftoff := acc.leftoff, rightoff := acc.rightoff + 1
          leftcount := acc.leftcount, rightcount := acc.rightcount + t.childcnt
          newoff := acc.newoff } hs
      have hd0 : fr - i = 0 := by omega
      have hd1 : fr - (i + 1) = 0 := by omega
      simp only [splitDistLoop, if_neg hne, if_neg hfr]
      rw [hd0]
      refine ⟨?_, ?_, ?_, ?_, ?_⟩
      · rw [ihx.1]; simp [hd1]
      · rw [ihx.2.1]; simp [hd1, stripDead, List.append_assoc]
      · rw [ihx.2.2.1]
      · rw [ihx.2.2.2.1]; simp [hd1]
      · rw [ihx.2.2.2.2]; simp [hd1]; omega

theorem stripDead_append (a b : List (CBTTupleData × Bool)) :
    stripDead (a ++ b) = stripDead a ++ stripDead b := by simp [stripDead]

theorem stripDead_length (l : List (CBTTupleData × Bool)) :
    (stripDead l).length = l.length := by simp [stripDead]

theorem insertIdx_append_left (l1 l2 : List (CBTTupleData × Bool)) :
    ∀ (k : Nat) (v : CBTTupleData × Bool), k ≤ l1.length →
    l1.insertIdx k v ++ l2 = (l1 ++ l2).insertIdx k v := by
  induction l1 with
  | nil =>
    intro k v hk
    have : k = 0 := by simpa using hk
    subst this
    simp [List.insertIdx_zero]
  | cons x xs ih =>
    intro k v hk
    match k with
    | 0 => simp [List.insertIdx_zero]
    | k + 1 =>
      simp only [List.insertIdx_succ_cons, List.cons_append]
      rw [ih k v (by simpa using hk)]

theorem insertIdx_append_right (l1 l2 : List (CBTTupleData × Bool)) :
    ∀ (k : Nat) (v : CBTTupleData × Bool),
    l1 ++ l2.insertIdx k v = (l1 ++ l2).insertIdx (l1.length + k) v := by
  induction l1 with
  | nil => intro k v; simp
  | cons x xs ih =>
    intro k v
    simp only [List.cons_append, List.length_cons]
    rw [ih k v]
    have h : xs.length + 1 + k = xs.length + k + 1 := by omega
    rw [h, List.insertIdx_succ_cons]

theorem sumTupCnt_insertIdx (l : List (CBTTupleData × Bool)) :
    ∀ (k : Nat) (v : CBTTupleData × Bool), k ≤ l.length →
    sumTupCnt (l.insertIdx k v) = sumTupCnt l + v.1.childcnt := by
  induction l with
  | nil =>
    intro k v hk
    have : k = 0 := by simpa using hk
    subst this
    simp [List.insertIdx_zero, sumTupCnt]
  | cons x xs ih =>
    intro k v hk
    match k with
    | 0 => simp [List.insertIdx_zero, sumTupCnt]; omega
    | k + 1 =>
      simp only [List.insertIdx_succ_cons, sumTupCnt, List.map_cons, List.sum_cons]
      have := ih k v (by simpa using hk)
      simp only [sumTupCnt] at this
      omega

/-- The distribution loop over a stretch that contains the incoming
tuple's target offset (`acc.newoff = noff`, `i ≤ noff < i + rest.length`):
relative to the pure run, the incoming tuple is inserted once - into the
left page when `nol` (which requires `noff < fr`), else into the right page
- and the mutable newoff ends up at its on-page offset. -/
theorem splitDistLoop_place (il : Bool) (o r fr : Nat) (nol : Bool)
    (ni : CBTTupleData) (noff : Nat) (rest : List (CBTTupleData × Bool)) :
    ∀ (i : Nat) (acc : SplitAcc),
    acc.newoff = noff → i ≤ noff → noff < i + rest.length →
    1 ≤ acc.leftoff → 1 ≤ acc.rightoff → acc.leftoff + acc.rightoff = i + 1 →
    ((nol = true ∧ noff < fr) ∨ (nol = false ∧ fr ≤ noff)) →
    (splitDistLoop il o r fr nol ni rest i acc).litems =
        acc.litems ++ (if nol then
          (stripDead (rest.take (fr - i))).insertIdx (noff - i) (ni, false)
          else stripDead (rest.take (fr - i))) ∧
    (splitDistLoop il o r fr nol ni rest i acc).ritems =
        acc.ritems ++ (if nol then stripDead (rest.drop (fr - i))
          else (stripDead (rest.drop (fr - i))).insertIdx (noff - max i fr) (ni, false)) ∧
    (splitDistLoop il o r fr nol ni rest i acc).newoff =
        (if nol then acc.leftoff + (noff - i) else acc.rightoff + (noff - max i fr)) := by
  induction rest with
  | nil =>
    intro i acc _ _ hend _ _ _ _
    simp at hend
    omega
  | cons p rest ih =>
    intro i acc hno hin hend hl1 hr1 hsum hcase
    obtain ⟨t, d⟩ := p
    by_cases hplace : i = noff
    · -- the incoming tuple is placed right here
      have hif : i = acc.newoff := by rw [hno, hplace]
      rcases hcase with ⟨hnl, hfr2⟩ | ⟨hnl, hfr2⟩
      · -- nol = true: incoming tuple to the left page; the current item
        -- also goes left since i = noff < fr
        subst hnl
        have hifr : i < fr := by omega
        obtain ⟨e1, e2, e3, _, _⟩ := splitDistLoop_pure il o r fr true ni rest (i + 1)
          { st := if il = true then acc.st
                  else cbt_change_children acc.st t.itemptr o (acc.leftoff + 1)
            litems := (acc.litems ++ [(ni, false)]) ++ [(t, false)], ritems := acc.ritems
            leftoff := acc.leftoff + 1 + 1, rightoff := acc.rightoff
            leftcount := acc.leftcount + ni.childcnt + t.childcnt
            rightcount := acc.rightcount
            newoff := acc.leftoff } (Or.inl (by simp; omega))
        simp only [splitDistLoop, if_pos hif, if_pos hifr, eq_self_iff_true, if_true]
        have htk : fr - i = (fr - (i + 1)) + 1 := by omega
        have hni : noff - i = 0 := by omega
        refine ⟨?_, ?_, ?_⟩
        · rw [e1]
          simp [htk, hni, stripDead, List.insertIdx_zero, List.append_assoc]
        · rw [e2]
          simp [htk]
        · rw [e3]
          simp [hni]
      · -- nol = false: incoming tuple to the right page; the current item
        -- also goes right since fr <= noff = i
        subst hnl
        have hifr : ¬(i < fr) := by omega
        obtain ⟨e1, e2, e3, _, _⟩ := splitDistLoop_pure il o r fr false ni rest (i + 1)
          { st := if il = true then acc.st
                  else cbt_change_children acc.st t.itemptr r (acc.rightoff + 1)
            litems := acc.litems, ritems := (acc.ritems ++ [(ni, false)]) ++ [(t, false)]
            leftoff := acc.leftoff, rightoff := acc.rightoff + 1 + 1
            leftcount := acc.leftcount
            rightcount := acc.rightcount + ni.childcnt + t.childcnt
            newoff := acc.rightoff } (Or.inl (by simp; omega))
        simp only [splitDistLoop, if_pos hif, if_neg hifr, Bool.false_eq_true, if_false]
        have htk : fr - i = 0 := by omega
        have htk1 : fr - (i + 1) = 0 := by omega
        have hmx : max i fr = i := by omega
        refine ⟨?_, ?_, ?_⟩
        · rw [e1]
          simp [htk, htk1]
        · rw [e2]
          simp [htk, htk1, hmx, ← hplace, stripDead, List.insertIdx_zero, List.append_assoc]
        · rw [e3]
          simp [hmx, ← hplace]
    · -- not yet: the current item is distributed and the walk continues
      have hif : ¬(i = acc.newoff) := by rw [hno]; exact hplace
      have hin1 : i + 1 ≤ noff := by omega
      have hend1 : noff < i + 1 + rest.length := by
        simp only [List.length_cons] at hend; omega
      by_cases hifr : i < fr
      · have ihx := ih (i + 1)
          { st := if il = true then acc.st
                  else cbt_change_children acc.st t.itemptr o acc.leftoff
            litems := acc.litems ++ [(t, false)], ritems := acc.ritems
            leftoff := acc.leftoff + 1, rightoff := acc.rightoff
            leftcount := acc.leftcount + t.childcnt, rightcount := acc.rightcount
            newoff := acc.newoff } hno hin1 hend1 (by simp) (by simpa using hr1)
          (by simp; omega) hcase
        simp only [splitDistLoop, if_neg hif, if_pos hifr]
        have htk : fr - i = (fr - (i + 1)) + 1 := by omega
        have hsub : noff - i = (noff - (i + 1)) + 1 := by omega
        have hmx : max i fr = fr := by omega
        have hmx1 : max (i + 1) fr = fr := by omega
        refine ⟨?_, ?_, ?_⟩
        · rw [ihx.1]
          rcases hcase with ⟨hnl, _⟩ | ⟨hnl, _⟩ <;>
            simp [hnl, htk, hsub, stripDead, List.insertIdx_succ_cons, List.append_assoc]
        · rw [ihx.2.1]
          rcases hcase with ⟨hnl, _⟩ | ⟨hnl, _⟩ <;>
            simp [hnl, htk, hmx, hmx1, stripDead, List.append_assoc]
        · rw [ihx.2.2]
          rcases hcase with ⟨hnl, _⟩ | ⟨hnl, _⟩ <;> simp [hnl, hmx, hmx1] <;> omega
      · have ihx := ih (i + 1)
          { st := if il = true then acc.st
                  else cbt_change_children acc.st t.itemptr r acc.rightoff
            litems := acc.litems, ritems := acc.ritems ++ [(t, false)]
            leftoff := acc.leftoff, rightoff := acc.rightoff + 1
            leftcount := acc.leftcount, rightcount := acc.rightcount + t.childcnt
            newoff := acc.newoff } hno hin1 hend1 (by simpa using hl1) (by simp)
          (by simp; omega) hcase
        simp only [splitDistLoop, if_neg hif, if_neg hifr]
        have htk : fr - i = 0 := by omega
        have htk1 : fr - (i + 1) = 0 := by omega
        have hmx : max i fr = i := by omega
        have hmx1 : max (i + 1) fr = i + 1 := by omega
        have hsub : noff - i = (noff - (i + 1)) + 1 := by omega
        refine ⟨?_, ?_, ?_⟩
        · rw [ihx.1]
          rcases hcase with ⟨hnl, hc⟩ | ⟨hnl, hc⟩
          · omega
          · simp [hnl, htk, htk1]
        · rw [ihx.2.1]
          rcases hcase with ⟨hnl, hc⟩ | ⟨hnl, hc⟩
          · omega
          · simp [hnl, htk, htk1, hmx, hmx1, hsub, stripDead,
              List.insertIdx_succ_cons, List.append_assoc]
        · rw [ihx.2.2]
          rcases hcase with ⟨hnl, hc⟩ | ⟨hnl, hc⟩
          · omega
          · simp [hnl, hmx, hmx1]; omega

/-- C4 (confirmed): splitting a page of n tuples plus one incoming tuple
redistributes them so that (i) left-page-then-right-page concatenation is
exactly the original tuple sequence with the incoming tuple placed at its
target offset (all re-added as live items), (ii) the tuples strictly
before the midpoint firstright = n/2 + 1 stay on the left page (plus the
incoming tuple when its offset falls in the left half), and (iii) the two
pages' summed per-tuple counts equal the pre-split total plus the incoming
tuple's count.  The parameters are instantiated exactly as cbt_split_page
passes them to cbt_split_distribute. -/
theorem c4_split_page_distribution (is_leaf : Bool) (origpn rightpn : Nat)
    (st : CBTState) (items : List (CBTTupleData × Bool)) (newitemoff : Nat)
    (newitem : CBTTupleData) (acc : SplitAcc)
    (h1 : 1 ≤ newitemoff) (h2 : newitemoff ≤ items.length + 1)
    (h3 : 1 ≤ items.length)
    (hacc : acc = cbt_split_distribute is_leaf origpn rightpn
      (items.length / 2 + 1) (decide (newitemoff ≤ items.length / 2))
      items newitemoff newitem st) :
    acc.litems ++ acc.ritems = addItemAt (stripDead items) newitemoff newitem ∧
    acc.litems.length =
      items.length / 2 + (if newitemoff ≤ items.length / 2 then 1 else 0) ∧
    sumTupCnt acc.litems + sumTupCnt acc.ritems =
      sumTupCnt items + newitem.childcnt := by
  obtain ⟨n, rfl⟩ : ∃ m, newitemoff = m + 1 := ⟨newitemoff - 1, by omega⟩
  simp only [cbt_split_distribute, P_FIRSTOFFSET] at hacc
  have hmain : acc.litems ++ acc.ritems =
      (stripDead items).insertIdx n (newitem, false) ∧
      acc.litems.length =
        items.length / 2 + (if n + 1 ≤ items.length / 2 then 1 else 0) := by
    by_cases hend2 : items.length < n + 1
    · -- the incoming tuple's offset is maxoff + 1: the loop never places it
      -- and the after-loop step appends it to the right page
      have hn : n = items.length := by omega
      obtain ⟨e1, e2, e3, _, _⟩ := splitDistLoop_pure is_leaf origpn rightpn
        (items.length / 2 + 1) (decide (n + 1 ≤ items.length / 2)) newitem items 1
        ⟨st, [], [], 1, 1, 0, 0, n + 1⟩ (Or.inr (by simp; omega))
      have e3' : (splitDistLoop is_leaf origpn rightpn (items.length / 2 + 1)
          (decide (n + 1 ≤ items.length / 2)) newitem items 1
          ⟨st, [], [], 1, 1, 0, 0, n + 1⟩).newoff = n + 1 := e3
      simp only [splitDistEnd, e3'] at hacc
      rw [if_pos (by omega)] at hacc
      have hl : acc.litems = stripDead (items.take (items.length / 2)) := by
        rw [hacc]
        simpa using e1
      have hr : acc.ritems =
          stripDead (items.drop (items.length / 2)) ++ [(newitem, false)] := by
        rw [hacc]
        simp only []
        rw [e2]
        simp
      constructor
      · rw [hl, hr, ← List.append_assoc, ← stripDead_append, List.take_append_drop]
        have hlen2 : (stripDead items).length = n := by rw [stripDead_length, hn]
        rw [← hlen2, List.insertIdx_length_self]
      · rw [hl, if_neg (by omega)]
        rw [stripDead_length, List.length_take]
        omega
    · -- the incoming tuple's offset lies within the page
      have hfr1 : 1 ≤ items.length / 2 + 1 := by omega
      have hcase : (decide (n + 1 ≤ items.length / 2) = true ∧
            n + 1 < items.length / 2 + 1) ∨
          (decide (n + 1 ≤ items.length / 2) = false ∧
            items.length / 2 + 1 ≤ n + 1) := by
        by_cases hnol : n + 1 ≤ items.length / 2
        · exact Or.inl ⟨decide_eq_true hnol, by omega⟩
        · exact Or.inr ⟨decide_eq_false hnol, by omega⟩
      obtain ⟨e1, e2, e3⟩ := splitDistLoop_place is_leaf origpn rightpn
        (items.length / 2 + 1) (decide (n + 1 ≤ items.length / 2)) newitem (n + 1)
        items 1 ⟨st, [], [], 1, 1, 0, 0, n + 1⟩ rfl (by omega) (by omega)
        (by simp) (by simp) (by simp) hcase
      have e3' : (splitDistLoop is_leaf origpn rightpn (items.length / 2 + 1)
          (decide (n + 1 ≤ items.length / 2)) newitem items 1
          ⟨st, [], [], 1, 1, 0, 0, n + 1⟩).newoff =
          (if decide (n + 1 ≤ items.length / 2) = true then 1 + (n + 1 - 1)
           else 1 + (n + 1 - max 1 (items.length / 2 + 1))) := e3
      simp only [splitDistEnd, e3'] at hacc
      rw [if_neg (by rcases hcase with ⟨hd, hc⟩ | ⟨hd, hc⟩ <;> rw [hd] <;> simp <;> omega)]
        at hacc
      rcases hcase with ⟨hd, hc⟩ | ⟨hd, hc⟩
      · -- incoming tuple on the left page
        have hl : acc.litems = (stripDead (items.take (items.length / 2))).insertIdx
            n (newitem, false) := by
          rw [hacc, e1, hd]
          simp
        have hr : acc.ritems = stripDead (items.drop (items.length / 2)) := by
          rw [hacc, e2, hd]
          simp
        have hk : n ≤ (stripDead (items.take (items.length / 2))).length := by
          rw [stripDead_length, List.length_take]
          omega
        constructor
        · rw [hl, hr, insertIdx_append_left _ _ n (newitem, false) hk,
            ← stripDead_append, List.take_append_drop]
        · rw [hl, List.length_insertIdx n _ hk]
          rw [stripDead_length, List.length_take, if_pos (by omega)]
          omega
      · -- incoming tuple on the right page
        have hl : acc.litems = stripDead (items.take (items.length / 2)) := by
          rw [hacc, e1, hd]
          simp
        have hr : acc.ritems = (stripDead (items.drop (items.length / 2))).insertIdx
            (n + 1 - (items.length / 2 + 1)) (newitem, false) := by
          rw [hacc, e2, hd]
          simp
        constructor
        · rw [hl, hr, insertIdx_append_right]
          rw [← stripDead_append, List.take_append_drop]
          have hidx : (stripDead (items.take (items.length / 2))).length +
              (n + 1 - (items.length / 2 + 1)) = n := by
            rw [stripDead_length, List.length_take]
            omega
          rw [hidx]
        · rw [hl, if_neg (by omega)]
          rw [stripDead_length, List.length_take]
          omega
  refine ⟨?_, hmain.2, ?_⟩
  · rw [hmain.1, addItemAt, if_neg (by omega)]
    simp
  · have h4 := congrArg sumTupCnt hmain.1
    rw [sumTupCnt_append] at h4
    rw [h4, sumTupCnt_insertIdx _ n (newitem, false)
      (by rw [stripDead_length]; omega), sumTupCnt_stripDead]

/-- Witness for C4: a concrete two-tuple page split with the incoming
tuple at the end offset 3. -/
theorem c4_split_page_distribution_witness :
    (let L : List (CBTTupleData × Bool) :=
      [(CBTFormTuple (heapPtr 1) 1, false), (CBTFormTuple (heapPtr 2) 1, false)]
     let acc := cbt_split_distribute true 5 6 (L.length / 2 + 1)
       (decide (3 ≤ L.length / 2)) L 3 (CBTFormTuple (heapPtr 3) 1) emptyIndex
     acc.litems ++ acc.ritems =
       addItemAt (stripDead L) 3 (CBTFormTuple (heapPtr 3) 1) ∧
     acc.litems.length = L.length / 2 + (if 3 ≤ L.length / 2 then 1 else 0) ∧
     sumTupCnt acc.litems + sumTupCnt acc.ritems =
       sumTupCnt L + (CBTFormTuple (heapPtr 3) 1).childcnt) :=
  c4_split_page_distribution true 5 6 emptyIndex
    [(CBTFormTuple (heapPtr 1) 1, false), (CBTFormTuple (heapPtr 2) 1, false)]
    3 (CBTFormTuple (heapPtr 3) 1) _ (by decide) (by decide) (by decide) rfl

/-! ## Page store access lemmas -/

theorem getPage_ne_zero {st : CBTState} {b : Nat} {pg : CBTPage}
    (h : getPage st b = some pg) : b ≠ 0 := by
  intro hb
  rw [hb] at h
  simp [getPage] at h

theorem getPage_setPage_self {st : CBTState} {b : Nat} {pg0 : CBTPage}
    (pg : CBTPage) (h : getPage st b = some pg0) :
    getPage (setPage st b pg) b = some pg := by
  have hb := getPage_ne_zero h
  simp only [getPage, if_neg hb, List.getD_eq_getElem?_getD] at h ⊢
  have hlt : b - 1 < st.pages.length := by
    rcases hh : st.pages[b - 1]? with _ | v
    · rw [hh] at h; simp at h
    · exact (List.getElem?_eq_some.mp hh).1
  simp [setPage, List.getElem?_set_self hlt]

theorem getPage_setPage_ne {st : CBTState} {b b' : Nat} (pg : CBTPage)
    (hb : 1 ≤ b) (h : b' ≠ b) :
    getPage (setPage st b pg) b' = getPage st b' := by
  by_cases hz : b' = 0
  · simp [getPage, hz]
  · simp only [getPage, if_neg hz, List.getD_eq_getElem?_getD, setPage]
    rw [List.getElem?_set_ne (by omega)]

/-- C8 (confirmed): when cbt_split_page splits a page that has a right
sibling, the sibling's previous-page link is verified against the split
page's block number after the separator promotion (whose outcome is
hypothesised here as `hIns`): on a mismatch the whole split fails with the
corruption error, repairing nothing; on a match the split completes and
the sibling's previous link is re-pointed at the newly allocated right
page `newBlkno st0`. -/
theorem c8_split_sibling_link (cfg : CBTConfig) (fuel : Nat) (st0 : CBTState)
    (origpn : Nat) (newitem : CBTTupleData) (fr pfr : CBTStackData)
    (prest : List CBTStackData) (opg : CBTPage) (acc : SplitAcc)
    (stB : CBTState) (pfr3 : CBTStackData) (prest3 : List CBTStackData)
    (retb : Nat) (opgB spg : CBTPage)
    (hO : getPage (allocPage st0) origpn = some opg)
    (hacc : acc = cbt_split_distribute (P_ISLEAF opg.special) origpn
      (newBlkno st0) (opg.items.length / 2 + 1)
      (decide (fr.cbts_offset ≤ opg.items.length / 2)) opg.items
      fr.cbts_offset newitem (allocPage st0))
    (hIns : cbt_ins_step cfg fuel false
      (updTuple acc.st pfr.cbts_blkno pfr.cbts_offset
        (fun t => { t with childcnt := acc.leftcount }))
      pfr.cbts_blkno
      (CBTFormTuple { ip_blkid := newBlkno st0, ip_posid := P_FIRSTOFFSET }
        acc.rightcount)
      ({ pfr with cbts_offset := pfr.cbts_offset + 1 } :: prest) =
      .ok (stB, pfr3 :: prest3, retb))
    (hOB : getPage stB origpn = some opgB)
    (hNR : P_RIGHTMOST opgB.special = false)
    (hSib : getPage stB opgB.special.cbto_next = some spg)
    (hsame : opg.special.cbto_next = opgB.special.cbto_next)
    (hs1 : opgB.special.cbto_next ≠ origpn)
    (hs2 : opgB.special.cbto_next ≠ newBlkno st0) :
    (spg.special.cbto_prev ≠ origpn →
      cbt_split_page cfg (fuel + 1) st0 origpn newitem (fr :: pfr :: prest) =
        .error .corrupt) ∧
    (spg.special.cbto_prev = origpn →
      ∃ stF stk rb,
        cbt_split_page cfg (fuel + 1) st0 origpn newitem (fr :: pfr :: prest) =
          .ok (stF, stk, rb) ∧
        (getPage stF opgB.special.cbto_next).map
          (fun pg => pg.special.cbto_prev) = some (newBlkno st0)) := by
  subst hacc
  simp only [cbt_split_page, cbt_ins_step, hO, hIns, hOB, hNR, hSib,
    Bool.false_eq_true, if_false]
  constructor
  · intro hmis
    rw [if_pos hmis]
  · intro hmatch
    rw [if_neg (by simp [hmatch])]
    have hropn : (origpn == InvalidBlockNumber) = false ∨ True := Or.inr trivial
    -- the right page image is not rightmost either (its next link is the
    -- snapshot of the original page's next link)
    have hNR2 : (opgB.special.cbto_next == InvalidBlockNumber) = false := by
      simpa [P_RIGHTMOST] using hNR
    simp only [P_RIGHTMOST, hNR2, Bool.false_eq_true, if_false, hsame]
    have hb1 : 1 ≤ origpn := by
      have := getPage_ne_zero hOB
      omega
    have hrb1 : 1 ≤ newBlkno st0 := by
      simp [newBlkno]
    have hgetE : getPage (setPage (setPage stB origpn
        { items := (cbt_split_distribute (P_ISLEAF opg.special) origpn
            (newBlkno st0) (opg.items.length / 2 + 1)
            (decide (fr.cbts_offset ≤ opg.items.length / 2)) opg.items
            fr.cbts_offset newitem (allocPage st0)).litems
          special :=
          { cbto_prev := opg.special.cbto_prev
            cbto_next := newBlkno st0
            cbto_parent := { ip_blkid := 0, ip_posid := 0 }
            level := opg.special.level
            cbto_flags :=
            { leaf := opg.special.cbto_flags.leaf, root := false
              meta := opg.special.cbto_flags.meta
              deleted := opg.special.cbto_flags.deleted
              halfdead := opg.special.cbto_flags.halfdead } } })
        (newBlkno st0)
        { items := (cbt_split_distribute (P_ISLEAF opg.special) origpn
            (newBlkno st0) (opg.items.length / 2 + 1)
            (decide (fr.cbts_offset ≤ opg.items.length / 2)) opg.items
            fr.cbts_offset newitem (allocPage st0)).ritems
          special :=
          { cbto_prev := origpn
            cbto_next := opgB.special.cbto_next
            cbto_parent := { ip_blkid := pfr3.cbts_blkno, ip_posid := pfr3.cbts_offset }
            level := opg.special.level
            cbto_flags :=
            { leaf := opg.special.cbto_flags.leaf, root := false
              meta := opg.special.cbto_flags.meta
              deleted := opg.special.cbto_flags.deleted
              halfdead := opg.special.cbto_flags.halfdead } } })
        opgB.special.cbto_next = some spg := by
      rw [getPage_setPage_ne _ hrb1 hs2, getPage_setPage_ne _ hb1 hs1]
      exact hSib
    simp only [setPrevLink, hgetE]
    by_cases hside : decide (fr.cbts_offset ≤ opg.items.length / 2) = true
    · rw [if_pos hside]
      refine ⟨_, _, _, rfl, ?_⟩
      rw [getPage_setPage_self _ hgetE]
      rfl
    · rw [if_neg hside]
      refine ⟨_, _, _, rfl, ?_⟩
      rw [getPage_setPage_self _ hgetE]
      rfl

/-- Witness for C8: splitting the full block 1 of `c8st0` (which has the
right sibling block 2, whose previous link matches) re-points that link at
the newly allocated block 4. -/
theorem c8_split_sibling_link_witness :
    (c8leaf2.special.cbto_prev ≠ 1 →
      cbt_split_page c8cfg 6 c8st0 1 c8ni [c8fr, c8pfr] = .error .corrupt) ∧
    (c8leaf2.special.cbto_prev = 1 →
      ∃ stF stk rb,
        cbt_split_page c8cfg 6 c8st0 1 c8ni [c8fr, c8pfr] = .ok (stF, stk, rb) ∧
        (getPage stF c8leaf1.special.cbto_next).map
          (fun pg => pg.special.cbto_prev) = some (newBlkno c8st0)) :=
  c8_split_sibling_link c8cfg 5 c8st0 1 c8ni c8fr c8pfr [] c8leaf1 _ c8stB
    { cbts_blkno := 3, cbts_offset := 2, total_count := 0 } [] 3 c8leaf1 c8leaf2
    rfl rfl rfl rfl rfl rfl rfl (by decide) (by decide)

/-! ## Vacuum page-deletion lemmas -/

theorem cbt_reduce_parent_invalid (st : CBTState) (fuel : Nat) (c : Int)
    {p : ItemPointerData} (h : ItemPointerIsValid p = false) :
    cbt_reduce_parent st fuel p c = st := by
  cases fuel with
  | zero => rfl
  | succ n => simp [cbt_reduce_parent, h]

theorem getPage_rootUpd (st : CBTState) (x b : Nat) :
    getPage { st with cbtm_root := x } b = getPage st b := rfl

theorem getPage_setPage_self_isSome (st : CBTState) (b : Nat) (pg : CBTPage)
    (h : (getPage st b).isSome = true) :
    getPage (setPage st b pg) b = some pg := by
  rcases hh : getPage st b with _ | p
  · rw [hh] at h
    simp at h
  · exact getPage_setPage_self _ hh

theorem getPage_setPage_of_bne {st : CBTState} {b b' : Nat} {pg : CBTPage}
    (h : (b' == b) = false) (hb : (b == 0) = false) :
    getPage (setPage st b pg) b' = getPage st b' := by
  refine getPage_setPage_ne pg ?_ ?_
  · cases b with
    | zero => simp at hb
    | succ n => omega
  · simpa using h

/-- C6 (confirmed): removing the sole tuple of a leaf through
cbt_delitem_vacuum flags the emptied page CBT_DELETED and (a) clears the
meta record's root pointer when the page has no valid parent pointer (the
single-leaf tree of Scenario D), (b) otherwise removes the page's
separator from its parent page (after the -1 count propagation), and
(c) cascades: if the separator was the parent's last tuple, the parent is
flagged deleted too and - the parent being the root - the meta root
pointer is cleared, leaving a rootless tree. -/
theorem c6_vacuum_empty_page_deletion (fuel : Nat) (st : CBTState) (b : Nat)
    (pg : CBTPage) (t0 : CBTTupleData) (d0 : Bool)
    (hpg : getPage st b = some pg)
    (hitems : pg.items = [(t0, d0)]) :
    (ItemPointerIsValid pg.special.cbto_parent = false →
      ∃ stF, cbt_delitem_vacuum (fuel + 2) st b 1 = .ok stF ∧
        stF.cbtm_root = InvalidBlockNumber ∧
        (getPage stF b).map (fun p => (p.items, P_ISDELETED p.special)) =
          some ([], true)) ∧
    (∀ P k ppg tP dP,
      pg.special.cbto_parent = { ip_blkid := P, ip_posid := k } →
      k ≠ InvalidOffsetNumber →
      P ≠ b →
      getPage st P = some ppg →
      ppg.items.get? (k - 1) = some (tP, dP) →
      ItemPointerIsValid ppg.special.cbto_parent = false →
      (2 ≤ ppg.items.length →
        ∃ stF, cbt_delitem_vacuum (fuel + 3) st b 1 = .ok stF ∧
          stF.cbtm_root = st.cbtm_root ∧
          (getPage stF b).map (fun p => (p.items, P_ISDELETED p.special)) =
            some ([], true) ∧
          (getPage stF P).map (fun p => (p.items, P_ISDELETED p.special)) =
            some ((ppg.items.set (k - 1)
                ({ itemptr := tP.itemptr,
                   childcnt := u32add tP.childcnt (-1) }, dP)).eraseIdx (k - 1),
              P_ISDELETED ppg.special)) ∧
      (ppg.items = [(tP, dP)] → k = 1 →
        ∃ stF, cbt_delitem_vacuum (fuel + 4) st b 1 = .ok stF ∧
          stF.cbtm_root = InvalidBlockNumber ∧
          (getPage stF b).map (fun p => (p.items, P_ISDELETED p.special)) =
            some ([], true) ∧
          (getPage stF P).map (fun p => (p.items, P_ISDELETED p.special)) =
            some ([], true))) := by
  have hb1 : 1 ≤ b := by
    have := getPage_ne_zero hpg
    omega
  constructor
  · -- (a) no valid parent: the root leaf empties, root pointer cleared
    intro hinv
    have hred := cbt_reduce_parent_invalid st (st.pages.length + 1) (-1) hinv
    have hinvP : (¬ItemPointerIsValid pg.special.cbto_parent = true) = True := by
      simp [hinv]
    have h2 : getPage (setPage st b { items := [], special := pg.special }) b =
        some { items := [], special := pg.special } :=
      getPage_setPage_self _ hpg
    simp only [cbt_delitem_vacuum, cbt_del_step, hpg, hred, hitems,
      List.eraseIdx, hinvP, eq_self_iff_true, if_true, h2, getPage_rootUpd]
    refine ⟨_, rfl, rfl, ?_⟩
    rw [getPage_setPage_self _ (by rw [getPage_rootUpd]; exact h2)]
    rfl
  · intro P k ppg tP dP hpar hk hPb hpp hkP hppinv
    have hP1 : 1 ≤ P := by
      have := getPage_ne_zero hpp
      omega
    have hbP : b ≠ P := fun h => hPb h.symm
    have hb0 : (b == 0) = false := by
      simp
      omega
    have hP0 : (P == 0) = false := by
      simp
      omega
    have hbPf : (b == P) = false := by
      simp [hbP]
    have hPbf : (P == b) = false := by
      simp [hPb]
    have hkvP : (¬ItemPointerIsValid { ip_blkid := P, ip_posid := k } = true) =
        False := by
      simp [ItemPointerIsValid, InvalidOffsetNumber] at hk ⊢
      exact hk
    have hppP : (¬ItemPointerIsValid ppg.special.cbto_parent = true) = True := by
      simp [hppinv]
    constructor
    · -- (b) separator removed from the surviving parent
      intro hlen
      have hne : ¬((ppg.items.set (k - 1)
          ({ itemptr := tP.itemptr, childcnt := u32add tP.childcnt (-1) }, dP)).eraseIdx
            (k - 1) = []) := by
        intro hcon
        have h1 := List.le_length_eraseIdx (ppg.items.set (k - 1)
          ({ itemptr := tP.itemptr, childcnt := u32add tP.childcnt (-1) }, dP)) (k - 1)
        rw [hcon] at h1
        simp [List.length_set] at h1
        omega
      simp only [cbt_delitem_vacuum, cbt_del_step, hpg, hpar, hkvP, hitems,
        List.eraseIdx, updTuple, hpp, hkP, cbt_reduce_parent,
        cbt_reduce_parent_invalid, hppinv, Bool.false_eq_true,
        not_false_eq_true, eq_self_iff_true, if_true, if_false,
        getPage_setPage_self_isSome, getPage_setPage_of_bne, getPage_rootUpd,
        hb0, hP0, hbPf, hPbf, Option.isSome_some, hne]
      refine ⟨_, rfl, rfl, ?_, ?_⟩
      · rw [getPage_setPage_self_isSome]
        · rfl
        · rw [getPage_setPage_of_bne hbPf hP0, getPage_setPage_self_isSome]
          · rfl
          · rw [getPage_setPage_of_bne hbPf hP0, hpg]
            rfl
      · rw [getPage_setPage_of_bne hPbf hb0, getPage_setPage_self_isSome]
        · rfl
        · rw [getPage_setPage_of_bne hPbf hb0, getPage_setPage_self_isSome]
          · rfl
          · rw [hpp]
            rfl
    · -- (c) the cascade: parent empties too, root pointer cleared
      intro hq hk1
      subst hk1
      simp only [cbt_delitem_vacuum, cbt_del_step, hpg, hpar, hkvP, hitems, hq,
        List.eraseIdx, List.set, List.get?, updTuple, hpp, hkP,
        cbt_reduce_parent, cbt_reduce_parent_invalid, hppinv,
        Bool.false_eq_true, not_false_eq_true, eq_self_iff_true, if_true,
        if_false, getPage_setPage_self_isSome, getPage_setPage_of_bne,
        getPage_rootUpd, hb0, hP0, hbPf, hPbf, Option.isSome_some]
      refine ⟨_, rfl, rfl, ?_, ?_⟩
      · rw [getPage_setPage_self_isSome]
        · rfl
        · rw [getPage_setPage_of_bne hbPf hP0, getPage_rootUpd,
            getPage_setPage_of_bne hbPf hP0, getPage_setPage_self_isSome]
          · rfl
          · rw [getPage_setPage_of_bne hbPf hP0, hpg]
            rfl
      · rw [getPage_setPage_of_bne hPbf hb0, getPage_setPage_self_isSome]
        · rfl
        · rw [getPage_rootUpd, getPage_setPage_self_isSome]
          · rfl
          · rw [getPage_setPage_of_bne hPbf hb0, getPage_setPage_self_isSome]
            · rfl
            · rw [hpp]
              rfl

/-- Witness for C6: vacuuming the only record of the two-level tree `c6st`
deletes both pages and leaves a rootless tree (Scenario D end state). -/
theorem c6_vacuum_empty_page_deletion_witness :
    ∃ stF, cbt_delitem_vacuum 5 c6st 1 1 = .ok stF ∧
      stF.cbtm_root = InvalidBlockNumber ∧
      (getPage stF 1).map (fun p => (p.items, P_ISDELETED p.special)) =
        some ([], true) ∧
      (getPage stF 2).map (fun p => (p.items, P_ISDELETED p.special)) =
        some ([], true) :=
  ((c6_vacuum_empty_page_deletion 1 c6st 1 c6leaf (CBTFormTuple (heapPtr 1) 1)
      false rfl rfl).2 2 1 c6root
      (CBTFormTuple { ip_blkid := 1, ip_posid := 1 } 1) false rfl
      (by decide) (by decide) rfl rfl rfl).2 rfl rfl

/-! ## Rank-zero search lemmas -/

theorem searchLoop_zero_one :
    ∀ (items : List (CBTTupleData × Bool)),
      items.all (fun p => p.2 || decide (1 ≤ p.1.childcnt)) = true →
      items.any (fun p => !p.2) = true →
      ∀ off, ∃ o t,
        searchLoop 0 items off 0 = some (o, 0) ∧
        searchLoop 1 items off 0 = some (o, 0) ∧
        off ≤ o ∧
        items.get? (o - off) = some (t, false) := by
  intro items
  induction items with
  | nil => intro _ hlive; simp at hlive
  | cons x rest ih =>
    intro hcnt hlive off
    rcases x with ⟨t, dead⟩
    cases dead with
    | true =>
      have hcnt1 : rest.all (fun p => p.2 || decide (1 ≤ p.1.childcnt)) = true := by
        simpa using hcnt
      have hlive1 : rest.any (fun p => !p.2) = true := by
        simpa using hlive
      obtain ⟨o, t2, h0, h1, hle, hget⟩ := ih hcnt1 hlive1 (off + 1)
      refine ⟨o, t2, ?_, ?_, by omega, ?_⟩
      · simpa [searchLoop] using h0
      · simpa [searchLoop] using h1
      · have hoo : o - off = (o - (off + 1)) + 1 := by omega
        rw [hoo]
        simpa using hget
    | false =>
      have h1c : 1 ≤ t.childcnt := by
        have := (List.all_eq_true.mp hcnt) (t, false) (by simp)
        simpa using this
      refine ⟨off, t, ?_, ?_, Nat.le_refl _, by simp⟩
      · simp [searchLoop]
      · simp [searchLoop]
        omega

theorem cbt_search_desc_zero_one (st : CBTState) :
    ∀ fuel blkno stack,
      searchable st fuel blkno = true →
      (match stack with
       | [] => 0
       | f :: _ => f.total_count) = 0 →
      cbt_search_desc st fuel blkno 0 stack =
        cbt_search_desc st fuel blkno 1 stack ∧
      cbt_search_desc st fuel blkno 0 stack ≠ none := by
  intro fuel
  induction fuel with
  | zero =>
    intro blkno stack hs hbase
    simp [searchable] at hs
  | succ f ih =>
    intro blkno stack hs hbase
    rcases hpg : getPage st blkno with _ | pg
    · rw [searchable, hpg] at hs
      simp at hs
    · rw [searchable, hpg] at hs
      simp only [Bool.and_eq_true, Bool.or_eq_true] at hs
      obtain ⟨⟨hlive, hcnt⟩, hkids⟩ := hs
      obtain ⟨o, t2, h0, h1, hle, hget⟩ :=
        searchLoop_zero_one pg.items hcnt hlive P_FIRSTOFFSET
      by_cases hleaf : P_ISLEAF pg.special = true
      · constructor
        · simp [cbt_search_desc, hpg, cbt_search_in_page, hbase, h0, h1, hleaf]
        · simp [cbt_search_desc, hpg, cbt_search_in_page, hbase, h0, hleaf]
      · have hkids2 : pg.items.all
            (fun p => p.2 || searchable st f p.1.itemptr.ip_blkid) = true := by
          rcases hkids with hk | hk
          · exact absurd hk hleaf
          · exact hk
        have hchild : searchable st f t2.itemptr.ip_blkid = true := by
          have := (List.all_eq_true.mp hkids2) (t2, false) (List.get?_mem hget)
          simpa using this
        have hget2 : pg.items[o - 1]? = some (t2, false) := by
          have h3 := hget
          simp only [P_FIRSTOFFSET, List.get?_eq_getElem?] at h3
          exact h3
        have hrec := ih t2.itemptr.ip_blkid
          ({ cbts_blkno := blkno, cbts_offset := o, total_count := 0 } :: stack)
          hchild rfl
        constructor
        · simp [cbt_search_desc, hpg, cbt_search_in_page, hbase, h0, h1, hleaf,
            hget2, hrec.1]
        · simpa [cbt_search_desc, hpg, cbt_search_in_page, hbase, h0, hleaf,
            hget2] using hrec.2

/-- C10 (confirmed): on a well-formed non-empty tree, a search for rank
position 0 behaves exactly like a search for rank 1 - the descent accepts
the first live tuple at which the accumulated left-count is at least the
requested position, and 0 <= c and 1 <= c coincide for every positive
count - so position 0 is never reported "not found". -/
theorem c10_rank_zero_is_rank_one (st : CBTState) (root : Nat)
    (hroot : cbt_getroot_read st = some root)
    (hs : searchable st (st.pages.length + 1) root = true) :
    cbt_search_read st 0 = cbt_search_read st 1 ∧
    cbt_search_read st 0 ≠ none ∧
    cbt_first st 0 = cbt_first st 1 := by
  have h := cbt_search_desc_zero_one st (st.pages.length + 1) root [] hs rfl
  refine ⟨?_, ?_, ?_⟩
  · simp [cbt_search_read, hroot, h.1]
  · simpa [cbt_search_read, hroot] using h.2
  · simp [cbt_first, cbt_search_read, hroot, h.1]

/-- Witness for C10: the two-level single-record tree `c6st` is
searchable, and rank position 0 search equals rank 1 search on it. -/
theorem c10_rank_zero_is_rank_one_witness :
    cbt_search_read c6st 0 = cbt_search_read c6st 1 ∧
    cbt_search_read c6st 0 ≠ none ∧
    cbt_first c6st 0 = cbt_first c6st 1 :=
  c10_rank_zero_is_rank_one c6st 2 rfl (by decide)

/-! ## Rank search correctness lemmas -/

theorem sumLiveCnt_append (a b : List (CBTTupleData × Bool)) :
    sumLiveCnt (a ++ b) = sumLiveCnt a + sumLiveCnt b := by
  induction a with
  | nil => simp [sumLiveCnt]
  | cons x rest ih =>
    rcases x with ⟨t, dead⟩
    simp [sumLiveCnt, ih]
    omega

theorem liveEntries_append (a b : List (CBTTupleData × Bool)) :
    liveEntries (a ++ b) = liveEntries a ++ liveEntries b := by
  induction a with
  | nil => simp [liveEntries]
  | cons x rest ih =>
    rcases x with ⟨t, dead⟩
    cases dead with
    | true => simpa [liveEntries] using ih
    | false => simpa [liveEntries] using ih

theorem sumLiveCnt_unit :
    ∀ (items : List (CBTTupleData × Bool)),
      items.all (fun p => p.2 || p.1.childcnt == 1) = true →
      sumLiveCnt items = (liveEntries items).length := by
  intro items
  induction items with
  | nil => intro _; simp [sumLiveCnt, liveEntries]
  | cons x rest ih =>
    intro hall
    rcases x with ⟨t, dead⟩
    rw [List.all_cons, Bool.and_eq_true] at hall
    have hrest : rest.all (fun p => p.2 || p.1.childcnt == 1) = true := hall.2
    cases dead with
    | true => simpa [sumLiveCnt, liveEntries] using ih hrest
    | false =>
      have h1 : t.childcnt = 1 := by
        have h2 := hall.1
        simpa using h2
      simp [sumLiveCnt, liveEntries, h1, ih hrest]
      omega

theorem searchLoop_none :
    ∀ (items : List (CBTTupleData × Bool)) (off base pos : Nat),
      base + sumLiveCnt items < pos →
      searchLoop pos items off base = none := by
  intro items
  induction items with
  | nil => intro off base pos _; rfl
  | cons x rest ih =>
    intro off base pos hlt
    rcases x with ⟨t, dead⟩
    cases dead with
    | true =>
      simp [sumLiveCnt] at hlt
      simpa [searchLoop] using ih (off + 1) base pos (by omega)
    | false =>
      simp [sumLiveCnt] at hlt
      have hno : ¬pos ≤ base + t.childcnt := by omega
      simp [searchLoop, hno]
      exact ih (off + 1) (base + t.childcnt) pos (by omega)

theorem searchLoop_found :
    ∀ (items : List (CBTTupleData × Bool)) (off base pos : Nat),
      base < pos → pos ≤ base + sumLiveCnt items →
      ∃ o t,
        searchLoop pos items off base =
          some (o, base + sumLiveCnt (items.take (o - off))) ∧
        off ≤ o ∧
        items.get? (o - off) = some (t, false) ∧
        base + sumLiveCnt (items.take (o - off)) < pos ∧
        pos ≤ base + sumLiveCnt (items.take (o - off)) + t.childcnt := by
  intro items
  induction items with
  | nil =>
    intro off base pos h1 h2
    simp [sumLiveCnt] at h2
    omega
  | cons x rest ih =>
    intro off base pos h1 h2
    rcases x with ⟨t, dead⟩
    cases dead with
    | true =>
      simp [sumLiveCnt] at h2
      obtain ⟨o, t2, hloop, hoff, hget, hlo, hhi⟩ :=
        ih (off + 1) base pos h1 (by omega)
      have hidx : o - off = (o - (off + 1)) + 1 := by omega
      refine ⟨o, t2, ?_, by omega, ?_, ?_, ?_⟩
      · simpa [searchLoop, hidx, sumLiveCnt] using hloop
      · rw [hidx]
        simpa using hget
      · rw [hidx]
        simp [sumLiveCnt]
        omega
      · rw [hidx]
        simp [sumLiveCnt]
        omega
    | false =>
      by_cases hc : pos ≤ base + t.childcnt
      · refine ⟨off, t, ?_, Nat.le_refl _, ?_, ?_, ?_⟩
        · simp [searchLoop, hc, sumLiveCnt]
        · simp
        · simp [sumLiveCnt]
          omega
        · simp [sumLiveCnt]
          omega
      · simp [sumLiveCnt] at h2
        obtain ⟨o, t2, hloop, hoff, hget, hlo, hhi⟩ :=
          ih (off + 1) (base + t.childcnt) pos (by omega) (by omega)
        have hidx : o - off = (o - (off + 1)) + 1 := by omega
        refine ⟨o, t2, ?_, by omega, ?_, ?_, ?_⟩
        · simpa [searchLoop, hc, hidx, sumLiveCnt, ← Nat.add_assoc] using hloop
        · rw [hidx]
          simpa using hget
        · rw [hidx]
          simp [sumLiveCnt]
          omega
        · rw [hidx]
          simp [sumLiveCnt]
          omega

theorem kidsUnder_nil (st : CBTState) (f : Nat) :
    kidsUnder st f [] = some [] := rfl

theorem kidsUnder_cons (st : CBTState) (f : Nat) (x : CBTTupleData × Bool)
    (rest : List (CBTTupleData × Bool)) :
    kidsUnder st f (x :: rest) =
      if x.2 then kidsUnder st f rest
      else
        match entriesUnder st f x.1.itemptr.ip_blkid with
        | none => none
        | some mid =>
          if x.1.childcnt = mid.length then
            match kidsUnder st f rest with
            | none => none
            | some r => some (mid ++ r)
          else none := rfl

theorem kidsUnder_length (st : CBTState) (f : Nat) :
    ∀ (items : List (CBTTupleData × Bool)) (es : List ItemPointerData),
      kidsUnder st f items = some es → es.length = sumLiveCnt items := by
  intro items
  induction items with
  | nil =>
    intro es h
    rw [kidsUnder_nil] at h
    cases h
    rfl
  | cons x rest ih =>
    intro es h
    rw [kidsUnder_cons] at h
    rcases x with ⟨t, dead⟩
    cases dead with
    | true =>
      simp only [if_true] at h
      simpa [sumLiveCnt] using ih es h
    | false =>
      simp only [Bool.false_eq_true, if_false] at h
      rcases hmid : entriesUnder st f t.itemptr.ip_blkid with _ | mid
      · simp only [hmid] at h
        cases h
      · simp only [hmid] at h
        by_cases hcnt : t.childcnt = mid.length
        · rw [if_pos hcnt] at h
          rcases hrest : kidsUnder st f rest with _ | r
          · simp only [hrest] at h
            cases h
          · simp only [hrest] at h
            cases h
            simp [sumLiveCnt, ih r hrest, hcnt]
        · rw [if_neg hcnt] at h
          cases h

theorem kidsUnder_split (st : CBTState) (f : Nat) :
    ∀ (a : List (CBTTupleData × Bool)) (t : CBTTupleData)
      (post : List (CBTTupleData × Bool)) (es : List ItemPointerData),
      kidsUnder st f (a ++ (t, false) :: post) = some es →
      ∃ ea mid epost,
        entriesUnder st f t.itemptr.ip_blkid = some mid ∧
        es = ea ++ (mid ++ epost) ∧
        mid.length = t.childcnt ∧
        ea.length = sumLiveCnt a := by
  intro a
  induction a with
  | nil =>
    intro t post es h
    rw [List.nil_append, kidsUnder_cons] at h
    simp only [Bool.false_eq_true, if_false] at h
    rcases hmid : entriesUnder st f t.itemptr.ip_blkid with _ | mid
    · simp only [hmid] at h
      cases h
    · simp only [hmid] at h
      by_cases hcnt : t.childcnt = mid.length
      · rw [if_pos hcnt] at h
        rcases hrest : kidsUnder st f post with _ | r
        · simp only [hrest] at h
          cases h
        · simp only [hrest] at h
          cases h
          exact ⟨[], mid, r, rfl, rfl, hcnt.symm, rfl⟩
      · rw [if_neg hcnt] at h
        cases h
  | cons x a2 ih =>
    intro t post es h
    rw [List.cons_append, kidsUnder_cons] at h
    rcases x with ⟨t0, dead⟩
    cases dead with
    | true =>
      simp only [if_true] at h
      obtain ⟨ea, mid, epost, hmid, hsplit, hlen, halen⟩ := ih t post es h
      exact ⟨ea, mid, epost, hmid, hsplit, hlen, by simpa [sumLiveCnt] using halen⟩
    | false =>
      simp only [Bool.false_eq_true, if_false] at h
      rcases hmid0 : entriesUnder st f t0.itemptr.ip_blkid with _ | m0
      · simp only [hmid0] at h
        cases h
      · simp only [hmid0] at h
        by_cases hcnt0 : t0.childcnt = m0.length
        · rw [if_pos hcnt0] at h
          rcases hrest : kidsUnder st f (a2 ++ (t, false) :: post) with _ | r
          · simp only [hrest] at h
            cases h
          · simp only [hrest] at h
            cases h
            obtain ⟨ea, mid, epost, hmid, hsplit, hlen, halen⟩ :=
              ih t post r hrest
            refine ⟨m0 ++ ea, mid, epost, hmid, ?_, hlen, ?_⟩
            · rw [hsplit, List.append_assoc]
            · simp [sumLiveCnt, halen, hcnt0]
        · rw [if_neg hcnt0] at h
          cases h

theorem listSplit_of_get? {α : Type} (l : List α) (i : Nat) (x : α)
    (h : l.get? i = some x) :
    l = l.take i ++ x :: l.drop (i + 1) := by
  have hx : l[i]? = some x := by simpa [List.get?_eq_getElem?] using h
  obtain ⟨hlt, heq⟩ := List.getElem?_eq_some_iff.mp hx
  conv_lhs => rw [← List.take_append_drop i l]
  rw [List.drop_eq_getElem_cons hlt, heq]

theorem cbt_search_desc_rank (st : CBTState) :
    ∀ fuel blkno stack es base pos,
      entriesUnder st fuel blkno = some es →
      (match stack with
       | [] => 0
       | f :: _ => f.total_count) = base →
      base < pos →
      (pos ≤ base + es.length →
        ∃ fr rest2 lpg t,
          cbt_search_desc st fuel blkno pos stack = some (fr :: rest2) ∧
          getPage st fr.cbts_blkno = some lpg ∧
          P_ISLEAF lpg.special = true ∧
          lpg.items.get? (fr.cbts_offset - 1) = some (t, false) ∧
          es.get? (pos - base - 1) = some t.itemptr) ∧
      (base + es.length < pos →
        cbt_search_desc st fuel blkno pos stack = none) := by
  intro fuel
  induction fuel with
  | zero =>
    intro blkno stack es base pos hes
    simp [entriesUnder] at hes
  | succ f ih =>
    intro blkno stack es base pos hes hbase hlt
    rcases hpg : getPage st blkno with _ | pg
    · rw [entriesUnder] at hes
      simp only [hpg] at hes
      cases hes
    · by_cases hleaf : P_ISLEAF pg.special = true
      · -- leaf page: the entries are its own live tuples
        rw [entriesUnder] at hes
        simp only [hpg, hleaf, if_true] at hes
        by_cases hunit : pg.items.all (fun p => p.2 || p.1.childcnt == 1) = true
        · rw [if_pos hunit] at hes
          cases hes
          have hsum := sumLiveCnt_unit pg.items hunit
          constructor
          · intro hin
            obtain ⟨o, t, hloop, hoff, hget, hlo, hhi⟩ :=
              searchLoop_found pg.items P_FIRSTOFFSET base pos hlt (by omega)
            have ht1 : t.childcnt = 1 := by
              have hm := List.get?_mem hget
              have h2 := List.all_eq_true.mp hunit _ hm
              simpa using h2
            have hsplit := listSplit_of_get? pg.items (o - P_FIRSTOFFSET) _ hget
            have hle : liveEntries pg.items =
                liveEntries (pg.items.take (o - P_FIRSTOFFSET)) ++
                  t.itemptr ::
                    liveEntries (pg.items.drop (o - P_FIRSTOFFSET + 1)) := by
              conv_lhs => rw [hsplit]
              rw [liveEntries_append]
              simp [liveEntries]
            have hunitTake : (pg.items.take (o - P_FIRSTOFFSET)).all
                (fun p => p.2 || p.1.childcnt == 1) = true := by
              rw [List.all_eq_true] at hunit ⊢
              intro p hp
              exact hunit p (List.take_subset _ _ hp)
            have hsumTake := sumLiveCnt_unit _ hunitTake
            refine ⟨{ cbts_blkno := blkno
                      cbts_offset := o
                      total_count :=
                        base + sumLiveCnt (pg.items.take (o - P_FIRSTOFFSET)) },
              stack, pg, t, ?_, hpg, hleaf, ?_, ?_⟩
            · simp [cbt_search_desc, hpg, cbt_search_in_page, hbase, hloop, hleaf]
            · simpa [P_FIRSTOFFSET] using hget
            · rw [hle]
              have hidx2 : pos - base - 1 =
                  (liveEntries (pg.items.take (o - P_FIRSTOFFSET))).length := by
                omega
              rw [hidx2, List.get?_append_right (Nat.le_refl _)]
              simp
          · intro hout
            have hnone := searchLoop_none pg.items P_FIRSTOFFSET base pos (by omega)
            simp [cbt_search_desc, hpg, cbt_search_in_page, hbase, hnone]
        · rw [if_neg hunit] at hes
          cases hes
      · -- internal page: recurse into the chosen child
        have hleaf2 : P_ISLEAF pg.special = false := by
          simpa using hleaf
        rw [entriesUnder] at hes
        simp only [hpg, hleaf2, Bool.false_eq_true, if_false] at hes
        have hkids : kidsUnder st f pg.items = some es := hes
        have hlen := kidsUnder_length st f pg.items es hkids
        constructor
        · intro hin
          obtain ⟨o, t, hloop, hoff, hget, hlo, hhi⟩ :=
            searchLoop_found pg.items P_FIRSTOFFSET base pos hlt (by omega)
          have hsplit := listSplit_of_get? pg.items (o - P_FIRSTOFFSET) _ hget
          have hkids2 : kidsUnder st f (pg.items.take (o - P_FIRSTOFFSET) ++
              (t, false) :: pg.items.drop (o - P_FIRSTOFFSET + 1)) = some es := by
            rw [← hsplit]
            exact hkids
          obtain ⟨ea, mid, epost, hmid, hes2, hmidlen, healen⟩ :=
            kidsUnder_split st f _ t _ es hkids2
          have ihc := ih t.itemptr.ip_blkid
            ({ cbts_blkno := blkno
               cbts_offset := o
               total_count :=
                 base + sumLiveCnt (pg.items.take (o - P_FIRSTOFFSET)) }
              :: stack) mid
            (base + sumLiveCnt (pg.items.take (o - P_FIRSTOFFSET))) pos hmid rfl
            (by omega)
          obtain ⟨fr2, rest2, lpg, t2, hdesc2, hlpg, hlleaf, hlget, hmidget⟩ :=
            ihc.1 (by omega)
          refine ⟨fr2, rest2, lpg, t2, ?_, hlpg, hlleaf, hlget, ?_⟩
          · have hget2 : pg.items[o - 1]? = some (t, false) := by
              simpa [P_FIRSTOFFSET, List.get?_eq_getElem?] using hget
            simpa [cbt_search_desc, hpg, cbt_search_in_page, hbase, hloop,
              hleaf2, hget2] using hdesc2
          · rw [hes2]
            have h1 : pos - base - 1 = ea.length +
                (pos - (base + sumLiveCnt (pg.items.take (o - P_FIRSTOFFSET))) - 1) := by
              omega
            rw [h1, List.get?_append_right (by omega), Nat.add_sub_cancel_left]
            rw [List.get?_append (by omega)]
            exact hmidget
        · intro hout
          have hnone := searchLoop_none pg.items P_FIRSTOFFSET base pos (by omega)
          simp [cbt_search_desc, hpg, cbt_search_in_page, hbase, hnone]

/-- C1 (confirmed): on a tree whose live leaf entries (in rank order,
validated together with the stored counts by `entriesUnder`) are `es`, a
search for any rank k >= 1 returns, when k <= |es|, a path stack whose
leaf frame identifies a live leaf tuple holding exactly the k-th entry of
`es`; when k > |es| the search returns NULL. -/
theorem c1_rank_search (st : CBTState) (root : Nat) (es : List ItemPointerData)
    (k : Nat)
    (hroot : cbt_getroot_read st = some root)
    (hes : entriesUnder st (st.pages.length + 1) root = some es)
    (hk : 1 ≤ k) :
    (k ≤ es.length →
      ∃ fr rest lpg t,
        cbt_search_read st k = some (fr :: rest) ∧
        getPage st fr.cbts_blkno = some lpg ∧
        P_ISLEAF lpg.special = true ∧
        lpg.items.get? (fr.cbts_offset - 1) = some (t, false) ∧
        es.get? (k - 1) = some t.itemptr) ∧
    (es.length < k → cbt_search_read st k = none) := by
  have h := cbt_search_desc_rank st (st.pages.length + 1) root [] es 0 k hes rfl
    (by omega)
  constructor
  · intro hin
    obtain ⟨fr, rest, lpg, t, hdesc, hlpg, hlleaf, hlget, hidx⟩ := h.1 (by omega)
    refine ⟨fr, rest, lpg, t, ?_, hlpg, hlleaf, hlget, ?_⟩
    · simp [cbt_search_read, hroot, hdesc]
    · simpa using hidx
  · intro hout
    simp [cbt_search_read, hroot, h.2 (by omega)]

/-- Witness for C1: in the four-record two-leaf tree `c8st0` the rank-3
search finds the third record. -/
theorem c1_rank_search_witness :
    (3 ≤ ([heapPtr 1, heapPtr 2, heapPtr 3, heapPtr 4] :
        List ItemPointerData).length →
      ∃ fr rest lpg t,
        cbt_search_read c8st0 3 = some (fr :: rest) ∧
        getPage c8st0 fr.cbts_blkno = some lpg ∧
        P_ISLEAF lpg.special = true ∧
        lpg.items.get? (fr.cbts_offset - 1) = some (t, false) ∧
        ([heapPtr 1, heapPtr 2, heapPtr 3, heapPtr 4] :
          List ItemPointerData).get? (3 - 1) = some t.itemptr) ∧
    (([heapPtr 1, heapPtr 2, heapPtr 3, heapPtr 4] :
        List ItemPointerData).length < 3 →
      cbt_search_read c8st0 3 = none) :=
  c1_rank_search c8st0 3 [heapPtr 1, heapPtr 2, heapPtr 3, heapPtr 4] 3
    rfl rfl (by decide)
